import Mathlib

/-!
# PedigreeMaker.js — shallow embedding and verification

This file embeds the core of `src/PedigreeMaker.js` (a canvas pedigree-chart
library) in Lean 4 and settles a list of claims about it.

Modelling conventions:
* JS numbers are modelled as `ℚ` (the code only performs field operations,
  `Math.round`, `Math.min`/`max`/`abs` on them; no NaN/Infinity arises on the
  inputs considered — configurations with zero spacing, which would produce
  NaN/Infinity in JS, are excluded by hypotheses where relevant).
* `Math.round x` is `⌊x + 1/2⌋` (JS rounds halves toward +∞).
* Angles handed to `ctx.arc` are recorded in units of π, so the full JS turn
  `2 * Math.PI` is the rational `2`.
* Drawing is modelled as a list of `Cmd` values, one per primitive emitted on
  the canvas; pure style state (colors, line width, shadow) is not recorded
  except where it decides whether a primitive is emitted at all
  (`style.facecolor`).  Connection primitives carry the JS dedup key they
  were emitted under, purely as bookkeeping.
* A thrown JS `TypeError` (reading a property of `undefined`) is modelled by
  `Option`: `none` means the pass failed.
* The per-render Coordinate Index `this.nodeCoords` is modelled as recomputed
  from the current data of the pass (the node-drawing loop assigns an entry
  for every person, later entries overwriting earlier ones with the same id,
  before `_drawConnections` reads it).
* JS `Array.prototype.sort` (in-place, default lexicographic comparator on
  UTF-16 code units) is modelled by `sortJS` below together with explicit
  rewriting of the mutated field.
-/

namespace PedigreeMaker

/-- JS `<` on two strings, compared as their character sequences
(lexicographic on code units). -/
def listLtB : List Char → List Char → Bool
  | [], [] => false
  | [], _ :: _ => true
  | _ :: _, [] => false
  | a :: as, b :: bs =>
    if a.toNat < b.toNat then true
    else if b.toNat < a.toNat then false
    else listLtB as bs

/-- JS default sort comparator: string `a` precedes or ties string `b`. -/
def strLeB (a b : String) : Bool := !(listLtB b.data a.data)

/-- Insert into a list sorted by the JS default string comparator. -/
def insertSorted (x : String) : List String → List String
  | [] => [x]
  | y :: ys => if strLeB x y then x :: y :: ys else y :: insertSorted x ys

/-- JS `Array.prototype.sort()` with the default comparator, on string
arrays (insertion sort; any comparison-correct sort yields this order). -/
def sortJS : List String → List String
  | [] => []
  | x :: xs => insertSorted x (sortJS xs)

/-- JS `Array.prototype.join('-')`. -/
def joinDash : List String → String
  | [] => ""
  | [a] => a
  | a :: rest => a ++ "-" ++ joinDash rest

/-- Character-level worker for `splitChar`; `acc` holds the current chunk
reversed. -/
def splitCharAux (sep : Char) : List Char → List Char → List (List Char)
  | [], acc => [acc.reverse]
  | c :: cs, acc =>
    if c = sep then acc.reverse :: splitCharAux sep cs []
    else splitCharAux sep cs (c :: acc)

/-- JS `String.prototype.split(sep)` for a one-character separator. -/
def splitChar (sep : Char) (s : String) : List String :=
  (splitCharAux sep s.data []).map fun l => ⟨l⟩

/-- JS `String.prototype.split('-')`. -/
def splitDash (s : String) : List String := splitChar '-' s

/-- The string contains no `'-'` character (so it cannot corrupt the joined
keys the connection router builds). -/
def dashFree (s : String) : Prop := s.data.contains '-' = false

instance (s : String) : Decidable (dashFree s) := by unfold dashFree; infer_instance

/-! ## Data model (§3 of the spec, fields read by the engine) -/

/-- One person record of the input dataset. -/
structure Person where
  id : String
  name : String
  sex : String
  posX : ℚ
  posY : ℚ
  mate : Option String
  parents : Option (List String)
  phenotypes : List String
  isProband : Bool
  deriving DecidableEq, Repr

/-- A phenotype style registry entry. -/
structure PhenoStyle where
  facecolor : Option String
  description : String
  deriving DecidableEq, Repr

/-- The configuration object after the constructor merges the caller's
options over the defaults.  `default_affected` is always present after the
merge, so it is stored as a separate field used as the lookup fallback.
Pure style options (`lineWidth`, `lineColor`, `font`) do not influence which
primitives are emitted and are omitted. -/
structure Config where
  nodeWidth : ℚ
  nodeHeight : ℚ
  hSpacing : ℚ
  vSpacing : ℚ
  paddingLeft : ℚ
  paddingTop : ℚ
  probandArrowSize : ℚ
  phenotypes : List (String × PhenoStyle)
  defaultAffected : PhenoStyle
  autoLayoutOptimize : Bool
  deriving DecidableEq, Repr

/-- The default configuration of the constructor. -/
def defaults : Config where
  nodeWidth := 50
  nodeHeight := 50
  hSpacing := 100
  vSpacing := 120
  paddingLeft := 50
  paddingTop := 50
  probandArrowSize := 15
  phenotypes := []
  defaultAffected := ⟨some "#a9a9a9", "Affected"⟩
  autoLayoutOptimize := true

/-! ## Layout engine -/

/-- `_getPixelCoords`: grid to pixel transform. -/
def gridToPixel (c : Config) (gx gy : ℚ) : ℚ × ℚ :=
  (gx * c.hSpacing + c.paddingLeft, gy * c.vSpacing + c.paddingTop)

/-- JS `Math.round`: nearest integer, halves toward +∞. -/
def jsRound (q : ℚ) : ℤ := ⌊q + 1/2⌋

/-- The pixel-to-grid conversion performed by `_handleMouseMove`
(lines 186-191): exact inverse of `gridToPixel`, rounded to the nearest
integer grid cell, both axes clamped to be non-negative. -/
def roundTripPos (c : Config) (gx gy : ℚ) : ℚ × ℚ :=
  let pix := gridToPixel c gx gy
  (max 0 ((jsRound ((pix.1 - c.paddingLeft) / c.hSpacing) : ℤ) : ℚ),
   max 0 ((jsRound ((pix.2 - c.paddingTop) / c.vSpacing) : ℤ) : ℚ))

/-! ## Drawing commands -/

/-- One primitive emitted on the canvas. Coordinates are pixels; the angles
of `pieWedge` are in units of π.  Connection primitives carry the JS string
key under which `_drawConnections` emitted them (`partnershipKey` resp.
`parentKey`), as bookkeeping identifying which relationship produced them. -/
inductive Cmd where
  | clearSurface
  | pieWedge (cx cy radius a0 a1 : ℚ) (color : String)
  | barRect (x y w h : ℚ) (color : String)
  | outlineRect (x y w h : ℚ)
  | outlineCircle (cx cy radius : ℚ)
  | strokeLine (x1 y1 x2 y2 : ℚ)
  | textLine (s : String) (x y : ℚ)
  | partnershipLine (key : String) (x1 y1 x2 y2 : ℚ)
  | dropLine (key : String) (x y1 y2 : ℚ)
  | busLine (key : String) (x1 x2 y : ℚ)
  | childDrop (key : String) (x y1 y2 : ℚ)
  deriving DecidableEq, Repr

/-! ## Render pipeline: nodes -/

/-- `this.config.phenotypes[phenoId] || this.config.phenotypes['default_affected']`. -/
def styleFor (c : Config) (phenoId : String) : PhenoStyle :=
  (((c.phenotypes.find? fun e => e.1 = phenoId)).map Prod.snd).getD c.defaultAffected

/-- The pie-slice loop of `_drawPhenotypeFill` for the `'F'` branch:
`i` is the running phenotype index, `step` the angle step `2π/k` (in units
of π). A slice is emitted only when its style carries a `facecolor`. -/
def pieWedges (c : Config) (x y radius step : ℚ) : ℕ → List String → List Cmd
  | _, [] => []
  | i, ph :: rest =>
    (match (styleFor c ph).facecolor with
     | some col => [Cmd.pieWedge x y radius (step * i) (step * (i + 1)) col]
     | none => []) ++ pieWedges c x y radius step (i + 1) rest

/-- The vertical-bar loop of `_drawPhenotypeFill` for the `'M'` branch. -/
def barFill (c : Config) (y startX barWidth : ℚ) : ℕ → List String → List Cmd
  | _, [] => []
  | i, ph :: rest =>
    (match (styleFor c ph).facecolor with
     | some col => [Cmd.barRect (startX + i * barWidth) (y - c.nodeHeight / 2) barWidth c.nodeHeight col]
     | none => []) ++ barFill c y startX barWidth (i + 1) rest

/-- `_drawPhenotypeFill(person, x, y)`. -/
def phenotypeFillCmds (c : Config) (p : Person) (x y : ℚ) : List Cmd :=
  let k := p.phenotypes.length
  if k = 0 then []
  else if p.sex = "F" then
    pieWedges c x y (c.nodeWidth / 2) (2 / (k : ℚ)) 0 p.phenotypes
  else if p.sex = "M" then
    barFill c y (x - c.nodeWidth / 2) (c.nodeWidth / (k : ℚ)) 0 p.phenotypes
  else []

/-- `_drawText(text, x, y)`: the label is split on the newline character and
stacked at a fixed line height. -/
def drawTextCmds (text : String) (x y : ℚ) : List Cmd :=
  (splitChar (Char.ofNat 10) text).enum.map fun il =>
    Cmd.textLine il.2 x (y + 10 + (il.1 : ℚ) * 14)

/-- The proband arrow of `_drawNode` (three stroked segments of one path). -/
def probandArrowCmds (c : Config) (x y : ℚ) : List Cmd :=
  let arrowX := x - c.nodeWidth / 2 - 5
  [Cmd.strokeLine (arrowX - c.probandArrowSize) y arrowX y,
   Cmd.strokeLine arrowX y (arrowX - 5) (y - 5),
   Cmd.strokeLine arrowX y (arrowX - 5) (y + 5)]

/-- `_drawNode(person)`: phenotype fill, then the sex-keyed outline (none for
an unrecognized `sex`: the path stays empty and `stroke()` draws nothing),
then the proband arrow, then the label below the node. -/
def drawNodeCmds (c : Config) (p : Person) : List Cmd :=
  let pix := gridToPixel c p.posX p.posY
  let x := pix.1
  let y := pix.2
  (if p.phenotypes.length > 0 then phenotypeFillCmds c p x y else []) ++
  (if p.sex = "M" then
      [Cmd.outlineRect (x - c.nodeWidth / 2) (y - c.nodeHeight / 2) c.nodeWidth c.nodeHeight]
    else if p.sex = "F" then [Cmd.outlineCircle x y (c.nodeWidth / 2)]
    else []) ++
  (if p.isProband then probandArrowCmds c x y else []) ++
  drawTextCmds p.name x (y + c.nodeHeight / 2 + 5)

/-- The Coordinate Index entry for `id` after the node-drawing loop of a
render pass over `d`: every person is assigned `nodeCoords[person.id]` in
input order, so the last person with a given id wins. -/
def nodeCoord (c : Config) (d : List Person) (id : String) : Option (ℚ × ℚ) :=
  (d.reverse.find? fun p => p.id = id).map fun p => gridToPixel c p.posX p.posY

/-! ## Connection router -/

/-- Append a child id to the bucket of `key`, creating the bucket at the end
on first use (JS object insertion order). -/
def bucketInsert (bs : List (String × List String)) (key cid : String) :
    List (String × List String) :=
  if bs.any fun b => b.1 = key then
    bs.map fun b => if b.1 = key then (b.1, b.2 ++ [cid]) else b
  else bs ++ [(key, [cid])]

/-- The `childrenByParents` index built by the first loop of
`_drawConnections`: persons with a two-element `parents` pair, bucketed under
the sorted pair joined with `'-'`. -/
def childrenByParents (d : List Person) : List (String × List String) :=
  d.foldl
    (fun bs p =>
      match p.parents with
      | some l => if l.length = 2 then bucketInsert bs (joinDash (sortJS l)) p.id else bs
      | none => bs)
    []

/-- One step of the partnership loop of `_drawConnections`. The accumulator
carries the `drawnPartnerships` set and the commands emitted so far. A
partnership line is drawn at the first unseen key with both coordinates
resolved; the family drop line is drawn with it when the key also indexes a
sibling bucket. -/
def partnershipStep (c : Config) (d : List Person) (bks : List (String × List String))
    (acc : List String × List Cmd) (p : Person) : List String × List Cmd :=
  match p.mate with
  | none => acc
  | some m =>
    let key := joinDash (sortJS [p.id, m])
    if key ∈ acc.1 then acc
    else
      match nodeCoord c d p.id, nodeCoord c d m with
      | some p1, some p2 =>
        let ln := if p1.1 < p2.1 then p1 else p2
        let rn := if p1.1 < p2.1 then p2 else p1
        let line := Cmd.partnershipLine key (ln.1 + c.nodeWidth / 2) ln.2
          (rn.1 - c.nodeWidth / 2) rn.2
        let drops :=
          if bks.any fun b => b.1 = key then
            [Cmd.dropLine key ((p1.1 + p2.1) / 2) p1.2 (p1.2 + c.vSpacing / 2)]
          else []
        (acc.1 ++ [key], acc.2 ++ line :: drops)
      | _, _ => acc

/-- The partnership loop of `_drawConnections` over the whole dataset. -/
def partnershipFold (c : Config) (d : List Person) (bks : List (String × List String)) :
    List String × List Cmd :=
  d.foldl (partnershipStep c d bks) ([], [])

/-- The partnership and family-drop commands of a render pass. -/
def partnershipCmds (c : Config) (d : List Person) : List Cmd :=
  (partnershipFold c d (childrenByParents d)).2

/-- Resolve a list of ids against the Coordinate Index; an unresolved id
fails the computation (the JS code would dereference `undefined`). -/
def coordsOf (c : Config) (d : List Person) : List String → Option (List (ℚ × ℚ))
  | [] => some []
  | id1 :: rest =>
    match nodeCoord c d id1, coordsOf c d rest with
    | some xy, some xs => some (xy :: xs)
    | _, _ => none

/-- The sibship commands of one `parentKey` bucket (the final loop of
`_drawConnections`): the key is split on `'-'` and the first two parts are
looked up in the Coordinate Index with no guard, so an unresolved part makes
the pass throw (`none`).  An empty bucket cannot arise (buckets are created
with their first child). -/
def sibshipCmdsFor (c : Config) (d : List Person) (bucket : String × List String) :
    Option (List Cmd) :=
  match splitDash bucket.1 with
  | id0 :: id1 :: _ =>
    match nodeCoord c d id0, nodeCoord c d id1, coordsOf c d bucket.2 with
    | some p1, some p2, some childCoords =>
      let sibshipY := p1.2 + c.vSpacing / 2
      match childCoords.map Prod.fst with
      | [] => some []
      | x0 :: xrest =>
        let firstChildX := xrest.foldl min x0
        let lastChildX := xrest.foldl max x0
        let parentMidX := (p1.1 + p2.1) / 2
        some (Cmd.busLine bucket.1 (min parentMidX firstChildX) (max parentMidX lastChildX)
            sibshipY ::
          childCoords.map fun cc => Cmd.childDrop bucket.1 cc.1 sibshipY (cc.2 - c.nodeHeight / 2))
    | _, _, _ => none
  | _ => none

/-- The sibship loop over every bucket in insertion order; the first failing
bucket aborts the pass. -/
def sibshipAll (c : Config) (d : List Person) : List (String × List String) → Option (List Cmd)
  | [] => some []
  | b :: rest =>
    match sibshipCmdsFor c d b, sibshipAll c d rest with
    | some cs, some more => some (cs ++ more)
    | _, _ => none

/-- `_drawConnections()`: builds the buckets, runs the partnership loop,
then the per-bucket sibship loop; `none` models the pass throwing. -/
def connectionCmds (c : Config) (d : List Person) : Option (List Cmd) :=
  let bks := childrenByParents d
  (sibshipAll c d bks).map fun ls => (partnershipFold c d bks).2 ++ ls

/-! ## Layout optimizer -/

/-- The rewriting of `person.parents` performed by `person.parents?.sort()`:
the in-place JS sort leaves the field sorted. -/
def sortAllParents (p : Person) : Person :=
  match p.parents with
  | some l => { p with parents := some (sortJS l) }
  | none => p

/-- The sibling test of `_optimizeLayout`:
`JSON.stringify(person.parents?.sort()) === JSON.stringify(r.parents?.sort())
 && person.parents !== undefined`. -/
def sibB (p r : Person) : Bool :=
  p.parents.isSome && (p.parents.map sortJS == r.parents.map sortJS)

/-- One iteration of the inner obstacle loop of `_optimizeLayout` for the
person at index `i` (partner id `pid`, fixed span `(lo, hi)`): when the
obstacle at index `j` is a distinct same-row person strictly inside the span,
both `parents` arrays are sorted in place by the comparison, and the two
x-coordinates are swapped exactly when the sibling test succeeds. -/
def innerStep (pid : String) (lo hi : ℚ) (i : ℕ) (d : List Person) (j : ℕ) : List Person :=
  match d.get? i, d.get? j with
  | some p, some r =>
    if r.id ≠ p.id ∧ r.id ≠ pid ∧ r.posY = p.posY then
      if lo < r.posX ∧ r.posX < hi then
        let sw := sibB p r
        let p2 := { sortAllParents p with posX := if sw then r.posX else p.posX }
        let r2 := { sortAllParents r with posX := if sw then p.posX else r.posX }
        (d.set i p2).set j r2
      else d
    else d
  | _, _ => d

/-- One iteration of the outer loop of `_optimizeLayout` for the person at
index `i`: resolve the mate, fix the horizontal span, then run the obstacle
loop over the whole (mutating) dataset. -/
def outerStep (d : List Person) (i : ℕ) : List Person :=
  match d.get? i with
  | none => d
  | some p =>
    match p.mate with
    | none => d
    | some m =>
      match d.find? fun q => q.id = m with
      | none => d
      | some partner =>
        let lo := min p.posX partner.posX
        let hi := max p.posX partner.posX
        (List.range d.length).foldl (innerStep partner.id lo hi i) d

/-- `_optimizeLayout()`: skipped entirely when the toggle is off; otherwise a
single forward pass over the dataset. -/
def optimizeLayout (c : Config) (d : List Person) : List Person :=
  if c.autoLayoutOptimize then (List.range d.length).foldl outerStep d else d

/-! ## Engine state and render -/

/-- The engine state: the working copy, the original snapshot taken at
construction, and the merged configuration. -/
structure PMState where
  data : List Person
  originalData : List Person
  config : Config
  deriving DecidableEq, Repr

/-- Construction: both the working copy and the snapshot are deep copies of
the caller's dataset (value semantics make the deep copies plain values). -/
def construct (d : List Person) (c : Config) : PMState :=
  ⟨d, d, c⟩

/-- The rewriting of `person.parents` performed by the bucket-building loop
of `_drawConnections` (`person.parents.sort()` is called exactly for the
persons with a two-element pair, and sorts the array in place). -/
def sortPairParents (p : Person) : Person :=
  match p.parents with
  | some l => if l.length = 2 then { p with parents := some (sortJS l) } else p
  | none => p

/-- `render()`: optimize, clear, draw every node in input order, then route
connections.  `none` models the pass throwing in `_drawConnections`; the
data mutations of a pass (optimizer swaps and in-place `parents` sorts) all
happen before the only possible throw site, so the mutated state accompanies
the success case and `renderStateUpdate` describes it in both cases. -/
def renderResult (s : PMState) : Option (PMState × List Cmd) :=
  let d1 := optimizeLayout s.config s.data
  (connectionCmds s.config d1).map fun cc =>
    ({ s with data := d1.map sortPairParents },
     Cmd.clearSurface :: ((d1.map (drawNodeCmds s.config)).flatten ++ cc))

/-- The data mutation a render pass leaves behind (identical whether or not
the pass throws, since the throw site follows every mutation). -/
def renderStateUpdate (s : PMState) : PMState :=
  { s with data := (optimizeLayout s.config s.data).map sortPairParents }

/-! ## Interaction controller -/

/-- The clamped grid x-coordinate assigned by `_handleMouseMove` while
dragging. -/
def dragGridX (c : Config) (mouseX offsetX : ℚ) : ℚ :=
  max 0 ((jsRound ((mouseX - offsetX - c.paddingLeft) / c.hSpacing) : ℤ) : ℚ)

/-- The clamped grid y-coordinate assigned by `_handleMouseMove` while
dragging. -/
def dragGridY (c : Config) (mouseY offsetY : ℚ) : ℚ :=
  max 0 ((jsRound ((mouseY - offsetY - c.paddingTop) / c.vSpacing) : ℤ) : ℚ)

/-- Assign a new grid position to the drag target (the first person with the
target's id, as found by `this.data.find`). -/
def setPosFirst : List Person → String → ℚ → ℚ → List Person
  | [], _, _, _ => []
  | p :: rest, tid, nx, ny =>
    if p.id = tid then { p with posX := nx, posY := ny } :: rest
    else p :: setPosFirst rest tid nx ny

/-- The dragging branch of `_handleMouseMove`: compute the clamped grid
position from the pointer and the drag offset, mutate the drag target, then
re-render. -/
def handleDragMove (s : PMState) (tid : String) (offX offY mouseX mouseY : ℚ) : PMState :=
  let d := setPosFirst s.data tid (dragGridX s.config mouseX offX) (dragGridY s.config mouseY offY)
  renderStateUpdate { s with data := d }

/-- The operations of the public surface that touch the working copy. -/
inductive PMOp where
  | setData (nd : List Person)
  | drag (tid : String) (offX offY mouseX mouseY : ℚ)
  | render
  deriving DecidableEq, Repr

/-- Effect of one operation on the engine state (`setData` and a drag both
re-render). -/
def applyOp : PMOp → PMState → PMState
  | .setData nd, s => renderStateUpdate { s with data := nd }
  | .drag t ox oy mx my, s => handleDragMove s t ox oy mx my
  | .render, s => renderStateUpdate s

/-- A sequence of operations applied in order. -/
def applyOps (ops : List PMOp) (s : PMState) : PMState :=
  ops.foldl (fun s op => applyOp op s) s

/-- `resetPositions()`: the working copy is replaced by a fresh copy of the
original snapshot, then a render runs. -/
def resetState (s : PMState) : PMState :=
  renderStateUpdate { s with data := s.originalData }

/-! ## Lemmas about the JS string primitives -/

/-! ## Concrete datasets used by counterexamples and witnesses -/

/-- Adjacent entries are ordered by the JS comparator. -/
def ChainLeB (l : List String) : Prop := List.Chain' (fun a b => strLeB a b = true) l

/-- A configuration with two colored phenotype styles. -/
def cfgPie : Config :=
  { defaults with phenotypes := [("a", ⟨some "red", "A"⟩), ("b", ⟨some "blue", "B"⟩)] }

/-- A circular-category person with two phenotypes. -/
def personPie : Person := ⟨"P", "P", "F", 1, 0, none, none, ["a", "b"], false⟩

/-- A person with an unrecognized sex value and a colored phenotype. -/
def personU : Person := ⟨"U", "n", "X", 1, 1, none, none, ["a"], false⟩

/-- A person sitting at a negative grid position. -/
def personNeg : Person := ⟨"A", "A", "M", -2, 0, none, none, [], false⟩

/-- The person being dragged in the C6 counterexample. -/
def personB6 : Person := ⟨"B", "B", "M", 5, 0, none, none, [], false⟩

/-- Engine state of the C6 counterexample. -/
def stateC6 : PMState := construct [personNeg, personB6] defaults

/-- Person `P` of the C3 counterexample: unsorted `parents`, a mate, and a
sibling obstacle inside the span. -/
def personP3 : Person := ⟨"P", "P", "M", 0, 0, some "Q", some ["pb", "pa"], [], false⟩

/-- The mate of `P`. -/
def personQ3 : Person := ⟨"Q", "Q", "F", 3, 0, none, none, [], false⟩

/-- A sibling of `P` sitting strictly inside the `P`-`Q` span. -/
def personR3 : Person := ⟨"R", "R", "M", 1, 0, some "Q2", some ["pa", "pb"], [], false⟩

/-- The C3 counterexample dataset. -/
def dC3 : List Person := [personP3, personQ3, personR3]

/-- Provenance of one bucket of `childrenByParents`: its key joins some
person's sorted two-element parents pair and its children are ids of
persons of the dataset. -/
def bucketFrom (d : List Person) (b : String × List String) : Prop :=
  (∃ p ∈ d, ∃ l, p.parents = some l ∧ l.length = 2 ∧ b.1 = joinDash (sortJS l)) ∧
  ∀ cid ∈ b.2, ∃ p ∈ d, p.id = cid

/-- Every two-element parents pair of the dataset names only `'-'`-free ids
of persons present in the dataset. -/
def parentsResolvable (d : List Person) : Prop :=
  ∀ p ∈ d, ∀ l, p.parents = some l → l.length = 2 →
    ∀ pid ∈ l, dashFree pid ∧ ∃ q ∈ d, q.id = pid

instance (d : List Person) : Decidable (parentsResolvable d) := by
  unfold parentsResolvable
  infer_instance

/-- The C1 counterexample dataset: a child whose parents pair names two ids
absent from the dataset. -/
def ghostChild : Person := ⟨"c1", "c1", "M", 0, 1, none, some ["g1", "g2"], [], false⟩

/-- A person whose mate reference is dangling (no such person exists). -/
def famPA : Person := ⟨"pa", "pa", "M", 0, 0, some "ghost", none, [], false⟩

/-- The second parent of the witness family. -/
def famPB : Person := ⟨"pb", "pb", "F", 2, 0, none, none, [], false⟩

/-- The child of the witness family. -/
def famC : Person := ⟨"c", "c", "F", 1, 1, none, some ["pa", "pb"], [], false⟩

/-- Engine state of the C1 witness: a dangling mate plus a resolvable family. -/
def stateC1 : PMState := construct [famPA, famPB, famC] defaults

/-- The command is a partnership line with dedup key `K`. -/
def isPLineKey (K : String) : Cmd → Bool
  | Cmd.partnershipLine k _ _ _ _ => k == K
  | _ => false

/-- The command is a family drop line with dedup key `K`. -/
def isDLineKey (K : String) : Cmd → Bool
  | Cmd.dropLine k _ _ _ => k == K
  | _ => false

/-- Number of partnership lines with key `K`. -/
def pCount (K : String) (cmds : List Cmd) : ℕ := cmds.countP (isPLineKey K)

/-- Number of family drop lines with key `K`. -/
def dCount (K : String) (cmds : List Cmd) : ℕ := cmds.countP (isDLineKey K)

/-- `p` can emit the partnership key `K`: it holds a mate reference whose
dedup key is `K` and both endpoints resolve in the Coordinate Index. -/
def emitterFor (c : Config) (d : List Person) (K : String) (p : Person) : Prop :=
  ∃ m, p.mate = some m ∧ K = joinDash (sortJS [p.id, m]) ∧
    (nodeCoord c d p.id).isSome = true ∧ (nodeCoord c d m).isSome = true

/-- First partner of the colliding pair `{W, X}` (ids `a` and `b-c`). -/
def hyW : Person := ⟨"a", "a", "M", 0, 0, some "b-c", none, [], false⟩

/-- Second partner of the colliding pair `{W, X}`. -/
def hyX : Person := ⟨"b-c", "b-c", "F", 1, 0, some "a", none, [], false⟩

/-- First partner of the suppressed pair `{Y, Z}` (ids `a-b` and `c`). -/
def hyY : Person := ⟨"a-b", "a-b", "M", 2, 0, some "c", none, [], false⟩

/-- Second partner of the suppressed pair `{Y, Z}`. -/
def hyZ : Person := ⟨"c", "c", "F", 3, 0, none, none, [], false⟩

/-- The C5 counterexample dataset: both pairs produce the dedup key
`"a-b-c"`. -/
def dHy : List Person := [hyW, hyX, hyY, hyZ]

/-- A mate-linked couple with plain ids, for the C5 witness. -/
def cplA : Person := ⟨"A", "A", "M", 0, 0, some "B", none, [], false⟩

/-- The partner of `cplA`. -/
def cplB : Person := ⟨"B", "B", "F", 1, 0, none, none, [], false⟩

/-- The C5 witness dataset. -/
def dCpl : List Person := [cplA, cplB]

/-- The first parent of the C7 counterexample family (no mate edge). -/
def sibPA : Person := ⟨"pa", "pa", "M", 0, 0, none, none, [], false⟩

/-- The second parent of the C7 counterexample family. -/
def sibPB : Person := ⟨"pb", "pb", "F", 2, 0, none, none, [], false⟩

/-- The child of the C7 counterexample family. -/
def sibC : Person := ⟨"c0", "c0", "F", 1, 1, none, some ["pa", "pb"], [], false⟩

/-- The C7 counterexample dataset: a complete, fully resolvable sibling
group whose parents are not mate-linked. -/
def dSib : List Person := [sibPA, sibPB, sibC]

/-- C9 counterexample person `A`: mate of `A2`, sibling of `B` and `S`. -/
def optA : Person := ⟨"A", "A", "M", 0, 0, some "A2", some ["p1", "p2"], [], false⟩

/-- C9 counterexample person `A2`. -/
def optA2 : Person := ⟨"A2", "A2", "F", 2, 0, none, none, [], false⟩

/-- C9 counterexample person `B`: mate of `B2`, sibling of `A` and `S`. -/
def optB : Person := ⟨"B", "B", "M", 1, 0, some "B2", some ["p1", "p2"], [], false⟩

/-- C9 counterexample person `B2`. -/
def optB2 : Person := ⟨"B2", "B2", "F", 6, 0, none, none, [], false⟩

/-- C9 counterexample person `S`: the third sibling. -/
def optS : Person := ⟨"S", "S", "M", 5, 0, none, some ["p1", "p2"], [], false⟩

/-- C9 counterexample parent `p1`. -/
def optP1 : Person := ⟨"p1", "p1", "M", 0, 5, none, none, [], false⟩

/-- C9 counterexample parent `p2`. -/
def optP2 : Person := ⟨"p2", "p2", "F", 1, 5, none, none, [], false⟩

/-- Engine state of the C9 counterexample (optimizer enabled). -/
def stateC9 : PMState :=
  construct [optA, optA2, optB, optB2, optS, optP1, optP2] defaults

/-- The default configuration with the layout optimizer disabled. -/
def defaultsOff : Config := { defaults with autoLayoutOptimize := false }

/-- The single person of the C9 witness state. -/
def soloA : Person := ⟨"A", "A", "M", 0, 0, none, none, [], false⟩

/-- Engine state of the C9 witness (optimizer disabled). -/
def stateOff : PMState := construct [soloA] defaultsOff

theorem char_eq_of_toNat_eq {a b : Char} (h : a.toNat = b.toNat) : a = b :=
  Char.ext (UInt32.ext h)

theorem listLtB_irrefl (a : List Char) : listLtB a a = false := by
  induction' a with c cs ih
  · rfl
  · simp [listLtB, ih]

theorem listLtB_asymm {a b : List Char} (h : listLtB a b = true) : listLtB b a = false := by
  induction' a with x xs ih generalizing b
  · cases b with
    | nil => simp [listLtB] at h
    | cons y ys => simp [listLtB]
  · cases b with
    | nil => simp [listLtB] at h
    | cons y ys =>
      by_cases hxy : x.toNat < y.toNat
      · have hyx : ¬ y.toNat < x.toNat := Nat.lt_asymm hxy
        simp [listLtB, hxy, hyx]
      · by_cases hyx : y.toNat < x.toNat
        · simp [listLtB, hxy, hyx] at h
        · simp [listLtB, hxy, hyx] at h ⊢
          exact ih h

theorem listLtB_eq_of_both_false {a b : List Char}
    (hab : listLtB a b = false) (hba : listLtB b a = false) : a = b := by
  induction' a with x xs ih generalizing b
  · cases b with
    | nil => rfl
    | cons y ys => simp [listLtB] at hab
  · cases b with
    | nil => simp [listLtB] at hba
    | cons y ys =>
      by_cases hxy : x.toNat < y.toNat
      · simp [listLtB, hxy] at hab
      · by_cases hyx : y.toNat < x.toNat
        · simp [listLtB, hyx, Nat.lt_asymm hyx] at hba
        · simp [listLtB, hxy, hyx] at hab hba
          have hx : x = y := char_eq_of_toNat_eq (Nat.le_antisymm (Nat.not_lt.mp hyx) (Nat.not_lt.mp hxy))
          rw [hx, ih hab hba]

theorem strLeB_total {a b : String} (h : strLeB a b = false) : strLeB b a = true := by
  unfold strLeB at h ⊢
  simp only [Bool.not_eq_false'] at h
  simp [listLtB_asymm h]

theorem string_eq_of_data_eq {a b : String} (h : a.data = b.data) : a = b := by
  cases a; cases b; exact congrArg String.mk h

theorem strLeB_antisymm {a b : String} (hab : strLeB a b = true) (hba : strLeB b a = true) :
    a = b := by
  unfold strLeB at hab hba
  simp only [Bool.not_eq_true'] at hab hba
  exact string_eq_of_data_eq (listLtB_eq_of_both_false hba hab)

/-! ### `sortJS` is a permutation, chain-ordered, and idempotent -/

theorem insertSorted_length (x : String) (l : List String) :
    (insertSorted x l).length = l.length + 1 := by
  induction' l with y ys ih
  · rfl
  · by_cases h : strLeB x y = true
    · simp [insertSorted, h]
    · simp [insertSorted, h, ih]

theorem mem_insertSorted {x y : String} {l : List String} :
    y ∈ insertSorted x l ↔ y = x ∨ y ∈ l := by
  induction' l with z zs ih
  · simp [insertSorted]
  · by_cases h : strLeB x z = true
    · simp [insertSorted, h]
    · simp [insertSorted, h, ih]
      tauto

theorem sortJS_length (l : List String) : (sortJS l).length = l.length := by
  induction' l with x xs ih
  · rfl
  · simp [sortJS, insertSorted_length, ih]

theorem mem_sortJS {y : String} {l : List String} : y ∈ sortJS l ↔ y ∈ l := by
  induction' l with x xs ih
  · simp [sortJS]
  · simp [sortJS, mem_insertSorted, ih]

theorem chain_insertSorted {x : String} {l : List String} (h : ChainLeB l) :
    ChainLeB (insertSorted x l) := by
  induction' l with y ys ih
  · simp [insertSorted, ChainLeB]
  · by_cases hxy : strLeB x y = true
    · unfold ChainLeB
      simp only [insertSorted, hxy, if_true, reduceIte]
      exact List.chain'_cons.mpr ⟨hxy, h⟩
    · have hyx : strLeB y x = true := strLeB_total (by simpa using hxy)
      have hys : ChainLeB ys := (List.chain'_cons'.mp h).2
      have htail := ih hys
      unfold ChainLeB at htail ⊢
      simp only [insertSorted, hxy, if_neg]
      cases hys' : ys with
      | nil => simpa [insertSorted] using hyx
      | cons z zs =>
        subst hys'
        by_cases hxz : strLeB x z = true
        · simp only [insertSorted, hxz, if_pos] at htail ⊢
          exact List.chain'_cons.mpr ⟨hyx, htail⟩
        · simp only [insertSorted, hxz] at htail ⊢
          have hyz : strLeB y z = true := (List.chain'_cons.mp h).1
          exact List.chain'_cons.mpr ⟨hyz, htail⟩

theorem sortJS_chain (l : List String) : ChainLeB (sortJS l) := by
  induction' l with x xs ih
  · simp [sortJS, ChainLeB]
  · exact chain_insertSorted ih

theorem sortJS_of_chain {l : List String} (h : ChainLeB l) : sortJS l = l := by
  induction' l with x xs ih
  · rfl
  · have hxs : ChainLeB xs := (List.chain'_cons'.mp h).2
    simp only [sortJS, ih hxs]
    cases hxs' : xs with
    | nil => rfl
    | cons y ys =>
      subst hxs'
      have hxy : strLeB x y = true := (List.chain'_cons.mp h).1
      simp [insertSorted, hxy]

theorem sortJS_idem (l : List String) : sortJS (sortJS l) = sortJS l :=
  sortJS_of_chain (sortJS_chain l)

theorem sortJS_pair (a b : String) :
    sortJS [a, b] = if strLeB a b = true then [a, b] else [b, a] := by
  by_cases h : strLeB a b = true <;> simp [sortJS, insertSorted, h]

theorem sortJS_pair_comm (a b : String) : sortJS [a, b] = sortJS [b, a] := by
  rw [sortJS_pair, sortJS_pair]
  by_cases hab : strLeB a b = true
  · by_cases hba : strLeB b a = true
    · simp [hab, hba, strLeB_antisymm hab hba]
    · simp [hab, hba]
  · simp [hab, strLeB_total (by simpa using hab)]

/-! ### `joinDash` and `splitDash` -/

theorem joinDash_pair (a b : String) : joinDash [a, b] = a ++ "-" ++ b := rfl

theorem splitCharAux_no_sep {sep : Char} {l : List Char} (h : ∀ c ∈ l, c ≠ sep)
    (acc : List Char) : splitCharAux sep l acc = [acc.reverse ++ l] := by
  induction' l with c cs ih generalizing acc
  · simp [splitCharAux]
  · have hc : c ≠ sep := h c (by simp)
    rw [splitCharAux, if_neg hc, ih (fun d hd => h d (by simp [hd]))]
    simp

theorem splitCharAux_append {sep : Char} {l₁ : List Char} (h : ∀ c ∈ l₁, c ≠ sep)
    (l₂ acc : List Char) :
    splitCharAux sep (l₁ ++ sep :: l₂) acc = (acc.reverse ++ l₁) :: splitCharAux sep l₂ [] := by
  induction' l₁ with c cs ih generalizing acc
  · simp [splitCharAux]
  · have hc : c ≠ sep := h c (by simp)
    rw [List.cons_append, splitCharAux, if_neg hc, ih (fun d hd => h d (by simp [hd]))]
    simp

theorem not_dash_of_dashFree {s : String} (h : dashFree s) : ∀ c ∈ s.data, c ≠ '-' := by
  intro c hc hne
  subst hne
  simp only [dashFree] at h
  simp [List.contains_iff_exists_mem_beq] at h
  exact h hc

theorem splitDash_joinDash_pair {a b : String} (ha : dashFree a) (hb : dashFree b) :
    splitDash (joinDash [a, b]) = [a, b] := by
  have hdata : (joinDash [a, b]).data = a.data ++ '-' :: b.data := by
    rw [joinDash_pair, String.data_append, String.data_append]
    simp [List.append_assoc]
  unfold splitDash splitChar
  rw [hdata, splitCharAux_append (not_dash_of_dashFree ha),
    splitCharAux_no_sep (not_dash_of_dashFree hb)]
  simp

theorem joinDash_pair_inj {a b a' b' : String} (ha : dashFree a) (hb : dashFree b)
    (ha' : dashFree a') (hb' : dashFree b') (h : joinDash [a, b] = joinDash [a', b']) :
    a = a' ∧ b = b' := by
  have := splitDash_joinDash_pair ha hb
  rw [h, splitDash_joinDash_pair ha' hb'] at this
  simpa using this.symm

section ConcreteEvaluation

attribute [local semireducible] Rat.add Rat.mul Rat.sub Rat.inv

/-! ## C2 — grid/pixel round trip -/

/-- C2: the claim states that for every real-valued grid position and every
configuration, `pixelToGrid (gridToPixel pos)` yields `(max(x,0), max(y,0))`.
This fails at the non-integer position `x = 1/2` (the rounding step maps it
to the nearest integer cell `1`), refuting the claim as stated. -/
theorem C2_roundtrip_counterexample :
    roundTripPos defaults (1/2) 0 = (1, 0) ∧
    ((1 : ℚ), (0 : ℚ)) ≠ (max 0 ((1 : ℚ)/2), max 0 (0 : ℚ)) := by
  constructor
  · decide
  · decide

/-- C2 (amended): for grid positions with integer coordinates and any
configuration with nonzero spacings, composing the grid-to-pixel transform
with the inverse pixel-to-grid transform (exact inverse, round, clamp both
axes to be at least 0) yields `(max(x,0), max(y,0))`; for non-integer
coordinates the rounding step changes the value. -/
theorem C2_roundtrip_integer (c : Config) (gx gy : ℚ)
    (hh : c.hSpacing ≠ 0) (hv : c.vSpacing ≠ 0)
    (hx : ∃ n : ℤ, gx = (n : ℚ)) (hy : ∃ n : ℤ, gy = (n : ℚ)) :
    roundTripPos c gx gy = (max 0 gx, max 0 gy) := by
  obtain ⟨nx, rfl⟩ := hx
  obtain ⟨ny, rfl⟩ := hy
  unfold roundTripPos gridToPixel jsRound
  simp only
  rw [add_sub_cancel_right, add_sub_cancel_right,
    mul_div_cancel_right₀ _ hh, mul_div_cancel_right₀ _ hv,
    add_comm ((nx : ℚ)) _, add_comm ((ny : ℚ)) _,
    Int.floor_add_int, Int.floor_add_int]
  norm_num

/-- Witness for C2: the round trip at the integer position `(3, -2)` with
the default configuration clamps to `(3, 0)`. -/
theorem C2_roundtrip_integer_witness :
    roundTripPos defaults 3 (-2) = (max 0 3, max 0 (-2)) :=
  C2_roundtrip_integer defaults 3 (-2) (by decide) (by decide)
    ⟨3, by norm_num⟩ ⟨-2, by norm_num⟩

/-! ## C4 — pie wedges of the circular sex category -/

/-- When every style carries a fill color, the pie loop emits one wedge per
phenotype, the `i`-th spanning `[step·i, step·(i+1)]`. -/
theorem pieWedges_all_colored (c : Config) (x y radius step : ℚ) :
    ∀ (l : List String) (i : ℕ), (∀ ph ∈ l, (styleFor c ph).facecolor.isSome) →
    pieWedges c x y radius step i l = (List.enumFrom i l).map fun ie =>
      Cmd.pieWedge x y radius (step * ie.1) (step * (ie.1 + 1))
        ((styleFor c ie.2).facecolor.getD "" ) := by
  intro l
  induction' l with ph rest ih
  · intro i _
    rfl
  · intro i hcol
    have hhd : (styleFor c ph).facecolor.isSome := hcol ph (by simp)
    obtain ⟨col, hcol'⟩ := Option.isSome_iff_exists.mp hhd
    rw [pieWedges, hcol', ih (i + 1) fun q hq => hcol q (by simp [hq])]
    simp [List.enumFrom_cons, hcol']

/-- C4 counterexample: the claim states the first wedge starts at the top of
the circle, a quarter turn from the 0 angular reference.  For a two-phenotype
person the code emits wedges starting at angle 0 (the canvas 0 reference,
the circle's rightmost point): the first wedge is `[0, π]` (angles in units
of π), and 0 is not a quarter-turn offset (`±π/2` or `3π/2`). -/
theorem C4_wedge_start_counterexample :
    phenotypeFillCmds cfgPie personPie 150 50 =
      [Cmd.pieWedge 150 50 25 0 1 "red", Cmd.pieWedge 150 50 25 1 2 "blue"] ∧
    ¬ ((0 : ℚ) = 3/2 ∨ (0 : ℚ) = 1/2 ∨ (0 : ℚ) = -(1/2)) := by
  constructor
  · decide
  · decide

/-- C4 (amended): for every person of the circular sex category with `k ≥ 1`
phenotypes whose styles all carry fill colors, the fill consists of `k`
equal angular wedges of `2π/k` each (angles in units of π), in phenotype
list order, the first wedge starting at the 0 angular reference (the
rightmost point of the circle) — not at the top. -/
theorem C4_pie_wedges (c : Config) (p : Person) (x y : ℚ)
    (hs : p.sex = "F") (hk : p.phenotypes ≠ [])
    (hcol : ∀ ph ∈ p.phenotypes, (styleFor c ph).facecolor.isSome) :
    phenotypeFillCmds c p x y =
      p.phenotypes.enum.map fun ie =>
        Cmd.pieWedge x y (c.nodeWidth / 2) ((2 / (p.phenotypes.length : ℚ)) * ie.1)
          ((2 / (p.phenotypes.length : ℚ)) * (ie.1 + 1))
          ((styleFor c ie.2).facecolor.getD "" ) := by
  have hk' : p.phenotypes.length ≠ 0 := by simpa using hk
  unfold phenotypeFillCmds
  simp only [hk', if_neg, hs, if_pos, reduceIte]
  rw [pieWedges_all_colored c x y (c.nodeWidth / 2) (2 / (p.phenotypes.length : ℚ))
    p.phenotypes 0 hcol]
  rfl

/-- Witness for C4: the two-phenotype circular person yields the two
enumerated wedges. -/
theorem C4_pie_wedges_witness :
    phenotypeFillCmds cfgPie personPie 150 50 =
      personPie.phenotypes.enum.map fun ie =>
        Cmd.pieWedge 150 50 (cfgPie.nodeWidth / 2)
          ((2 / (personPie.phenotypes.length : ℚ)) * ie.1)
          ((2 / (personPie.phenotypes.length : ℚ)) * (ie.1 + 1))
          ((styleFor cfgPie ie.2).facecolor.getD "" ) :=
  C4_pie_wedges cfgPie personPie 150 50 rfl (by decide) (by decide)

/-! ## C8 — unrecognized sex -/

/-- C8 counterexample: the claim states that for a person with an
unrecognized sex the outline only is omitted while the phenotype fill (for
colored styles) is still drawn.  For a person of sex `"X"` with one colored
phenotype, the full node output is just the label: no outline and no fill. -/
theorem C8_unknown_sex_counterexample :
    (styleFor cfgPie "a").facecolor.isSome = true ∧
    drawNodeCmds cfgPie personU = [Cmd.textLine "n" 150 210] := by
  constructor
  · decide
  · decide

/-- C8 (amended): for a person whose sex is neither recognized category
value, the render pass omits both the shape outline and the phenotype fill
(the fill geometry is also keyed on sex); the proband marker and the
multi-line label are still drawn. -/
theorem C8_unknown_sex (c : Config) (p : Person) (h1 : p.sex ≠ "M") (h2 : p.sex ≠ "F") :
    drawNodeCmds c p =
      (if p.isProband then
          probandArrowCmds c (gridToPixel c p.posX p.posY).1 (gridToPixel c p.posX p.posY).2
        else []) ++
      drawTextCmds p.name (gridToPixel c p.posX p.posY).1
        ((gridToPixel c p.posX p.posY).2 + c.nodeHeight / 2 + 5) := by
  unfold drawNodeCmds phenotypeFillCmds
  simp [h1, h2]

/-- Witness for C8: the sex-`"X"` person draws only its label commands. -/
theorem C8_unknown_sex_witness :
    drawNodeCmds cfgPie personU =
      (if personU.isProband then
          probandArrowCmds cfgPie (gridToPixel cfgPie personU.posX personU.posY).1
            (gridToPixel cfgPie personU.posX personU.posY).2
        else []) ++
      drawTextCmds personU.name (gridToPixel cfgPie personU.posX personU.posY).1
        ((gridToPixel cfgPie personU.posX personU.posY).2 + cfgPie.nodeHeight / 2 + 5) :=
  C8_unknown_sex cfgPie personU (by decide) (by decide)

/-! ## C6 — drag clamping -/

/-- Dragging assigns the clamped position to the first person carrying the
target id. -/
theorem find?_setPosFirst {d : List Person} {tid : String} (nx ny : ℚ)
    (h : ∃ p ∈ d, p.id = tid) :
    ∃ p, (setPosFirst d tid nx ny).find? (fun q => q.id = tid) = some p ∧
      p.posX = nx ∧ p.posY = ny := by
  induction' d with q rest ih
  · obtain ⟨p, hp, _⟩ := h
    exact absurd hp (List.not_mem_nil p)
  · by_cases hq : q.id = tid
    · refine ⟨{ q with posX := nx, posY := ny }, ?_, rfl, rfl⟩
      rw [setPosFirst, if_pos hq]
      exact List.find?_cons_of_pos _ (by simpa using hq)
    · obtain ⟨p, hp, hpid⟩ := h
      rcases List.mem_cons.mp hp with rfl | hrest
      · exact absurd hpid hq
      · obtain ⟨p', h1, h2, h3⟩ := ih ⟨p, hrest, hpid⟩
        refine ⟨p', ?_, h2, h3⟩
        rw [setPosFirst, if_neg hq]
        rw [List.find?_cons_of_neg _ (by simpa using hq)]
        exact h1

/-- C6 counterexample: the claim states that after any interactive mutation
both grid coordinates of every person are non-negative.  Dragging person
`"B"` leaves the untouched person `"A"` at its negative x-coordinate `-2`. -/
theorem C6_clamp_counterexample :
    (handleDragMove stateC6 "B" 0 0 250 50).data.map Person.posX = [-2, 2] ∧
    ((-2 : ℚ) < 0) := by
  constructor
  · decide
  · decide

/-- C6 (amended): on every pointer move while dragging, the dragged person's
grid position is set to `(max(gx,0), max(gy,0))` with `(gx, gy)` the pointer
position minus the drag offset under the inverse transform with rounding;
consequently the dragged person's coordinates are non-negative after the
mutation.  Persons other than the drag target keep their previous (possibly
negative) coordinates. -/
theorem C6_drag_clamp (s : PMState) (tid : String) (ox oy mx my : ℚ)
    (hmem : ∃ p ∈ s.data, p.id = tid) :
    dragGridX s.config mx ox =
      max 0 ((jsRound ((mx - ox - s.config.paddingLeft) / s.config.hSpacing) : ℤ) : ℚ) ∧
    0 ≤ dragGridX s.config mx ox ∧ 0 ≤ dragGridY s.config my oy ∧
    (∃ p, (setPosFirst s.data tid (dragGridX s.config mx ox)
        (dragGridY s.config my oy)).find? (fun q => q.id = tid) = some p ∧
      p.posX = dragGridX s.config mx ox ∧ p.posY = dragGridY s.config my oy) ∧
    (setPosFirst s.data tid (dragGridX s.config mx ox)
        (dragGridY s.config my oy)).map Person.id = s.data.map Person.id := by
  refine ⟨rfl, le_max_left 0 _, le_max_left 0 _, find?_setPosFirst _ _ hmem, ?_⟩
  clear hmem
  induction' s.data with q rest ih
  · rfl
  · by_cases hq : q.id = tid
    · simp [setPosFirst, hq]
    · simp [setPosFirst, hq, ih]

/-- Witness for C6: dragging person `"B"` of the two-person state. -/
theorem C6_drag_clamp_witness :
    dragGridX stateC6.config 250 0 =
      max 0 ((jsRound ((250 - 0 - stateC6.config.paddingLeft) / stateC6.config.hSpacing) : ℤ) : ℚ) ∧
    0 ≤ dragGridX stateC6.config 250 0 ∧ 0 ≤ dragGridY stateC6.config 50 0 ∧
    (∃ p, (setPosFirst stateC6.data "B" (dragGridX stateC6.config 250 0)
        (dragGridY stateC6.config 50 0)).find? (fun q => q.id = "B") = some p ∧
      p.posX = dragGridX stateC6.config 250 0 ∧ p.posY = dragGridY stateC6.config 50 0) ∧
    (setPosFirst stateC6.data "B" (dragGridX stateC6.config 250 0)
        (dragGridY stateC6.config 50 0)).map Person.id = stateC6.data.map Person.id :=
  C6_drag_clamp stateC6 "B" 0 0 250 50 ⟨personB6, by decide, rfl⟩

/-! ## C3 — the sibling-swap heuristic -/

theorem sortAllParents_posX (q : Person) : (sortAllParents q).posX = q.posX := by
  cases hq : q.parents <;> simp [sortAllParents, hq]

theorem sortAllParents_posY (q : Person) : (sortAllParents q).posY = q.posY := by
  cases hq : q.parents <;> simp [sortAllParents, hq]

/-- C3 (amended): in one obstacle iteration of the optimizer's forward pass
— person `p` at index `i` with resolved partner id `pid` and fixed span
`(lo, hi)`, obstacle `r` at index `j` distinct from both and on `p`'s row
with `r.posX` strictly inside the span — the two x-coordinates are swapped
exactly when both carry `parents` fields identical as sorted id pairs; no
y-coordinate changes and no third person is touched.  (The pass does not
mutate only x-coordinates, however: the comparison sorts both `parents`
arrays in place, see the counterexample.) -/
theorem C3_inner_swap (pid : String) (lo hi : ℚ) (i j : ℕ) (d : List Person) (p r : Person)
    (hip : d.get? i = some p) (hjr : d.get? j = some r)
    (hid : r.id ≠ p.id) (hpid : r.id ≠ pid) (hy : r.posY = p.posY)
    (hlo : lo < r.posX) (hhi : r.posX < hi) :
    (sibB p r = true →
      ((innerStep pid lo hi i d j).get? i).map Person.posX = some r.posX ∧
      ((innerStep pid lo hi i d j).get? j).map Person.posX = some p.posX) ∧
    (sibB p r = false →
      ((innerStep pid lo hi i d j).get? i).map Person.posX = some p.posX ∧
      ((innerStep pid lo hi i d j).get? j).map Person.posX = some r.posX) ∧
    (∀ k, ((innerStep pid lo hi i d j).get? k).map Person.posY = (d.get? k).map Person.posY) ∧
    (∀ k, k ≠ i → k ≠ j → (innerStep pid lo hi i d j).get? k = d.get? k) := by
  have hij : i ≠ j := by
    intro h
    subst h
    rw [hip] at hjr
    exact hid (congrArg Person.id (Option.some.inj hjr)).symm
  have hstep : innerStep pid lo hi i d j =
      (d.set i { sortAllParents p with posX := if sibB p r then r.posX else p.posX }).set j
        { sortAllParents r with posX := if sibB p r then p.posX else r.posX } := by
    simp only [innerStep, hip, hjr]
    rw [if_pos ⟨hid, hpid, hy⟩, if_pos ⟨hlo, hhi⟩]
  have hgi : (innerStep pid lo hi i d j).get? i =
      some { sortAllParents p with posX := if sibB p r then r.posX else p.posX } := by
    rw [hstep, List.get?_set_ne _ _ (Ne.symm hij), List.get?_set_eq, hip]
    rfl
  have hgj : (innerStep pid lo hi i d j).get? j =
      some { sortAllParents r with posX := if sibB p r then p.posX else r.posX } := by
    rw [hstep, List.get?_set_eq, List.get?_set_ne _ _ hij, hjr]
    rfl
  refine ⟨fun hsw => ?_, fun hsw => ?_, fun k => ?_, fun k hki hkj => ?_⟩
  · rw [hgi, hgj]
    simp [hsw]
  · rw [hgi, hgj]
    simp [hsw]
  · by_cases hk1 : k = i
    · subst hk1
      rw [hgi, hip]
      simp [sortAllParents_posY]
    · by_cases hk2 : k = j
      · subst hk2
        rw [hgj, hjr]
        simp [sortAllParents_posY, hy]
      · rw [hstep, List.get?_set_ne _ _ (fun h => hk2 h.symm),
          List.get?_set_ne _ _ (fun h => hk1 h.symm)]
  · rw [hstep, List.get?_set_ne _ _ (fun h => hkj h.symm),
      List.get?_set_ne _ _ (fun h => hki h.symm)]

/-- C3 counterexample: the claim states the pass mutates only x-coordinates
of the working copy.  Running the optimizer on `dC3` also rewrites `P`'s
`parents` array from `["pb", "pa"]` to the sorted `["pa", "pb"]` (the JS
sibling comparison sorts the arrays in place), while performing the expected
swap of the x-coordinates of `P` and `R`. -/
theorem C3_parents_mutation_counterexample :
    (optimizeLayout defaults dC3).map Person.parents ≠ dC3.map Person.parents ∧
    (optimizeLayout defaults dC3).map Person.posX = [1, 3, 0] := by
  constructor
  · decide
  · decide

/-- Witness for C3: the inner-step specification applied to the obstacle
iteration `(i, j) = (0, 2)` of `dC3` (a sibling pair: the swap fires). -/
theorem C3_inner_swap_witness :
    (sibB personP3 personR3 = true →
      ((innerStep "Q" 0 3 0 dC3 2).get? 0).map Person.posX = some personR3.posX ∧
      ((innerStep "Q" 0 3 0 dC3 2).get? 2).map Person.posX = some personP3.posX) ∧
    (sibB personP3 personR3 = false →
      ((innerStep "Q" 0 3 0 dC3 2).get? 0).map Person.posX = some personP3.posX ∧
      ((innerStep "Q" 0 3 0 dC3 2).get? 2).map Person.posX = some personR3.posX) ∧
    (∀ k, ((innerStep "Q" 0 3 0 dC3 2).get? k).map Person.posY =
      (dC3.get? k).map Person.posY) ∧
    (∀ k, k ≠ 0 → k ≠ 2 → (innerStep "Q" 0 3 0 dC3 2).get? k = dC3.get? k) :=
  C3_inner_swap "Q" 0 3 0 2 dC3 personP3 personR3 rfl rfl (by decide) (by decide)
    (by decide) (by decide) (by decide)

/-! ## C10 — the original snapshot is never mutated -/

theorem applyOp_frame (op : PMOp) (s : PMState) :
    (applyOp op s).originalData = s.originalData ∧ (applyOp op s).config = s.config := by
  cases op <;> exact ⟨rfl, rfl⟩

theorem applyOps_frame (ops : List PMOp) (s : PMState) :
    (applyOps ops s).originalData = s.originalData ∧ (applyOps ops s).config = s.config := by
  induction' ops with op rest ih generalizing s
  · exact ⟨rfl, rfl⟩
  · have h1 := applyOp_frame op s
    have h2 := ih (applyOp op s)
    exact ⟨h2.1.trans h1.1, h2.2.trans h1.2⟩

/-- C10: `setData` replaces only the working copy — the original snapshot
taken at construction is left unchanged by `setData`, by drags and by
renders, so `resetPositions` always produces the same state as resetting a
freshly constructed engine: it restores the dataset supplied at construction
(and then re-renders it), even after `setData` substituted a different
dataset for the working copy. -/
theorem C10_reset_restores (d0 : List Person) (c : Config) (ops : List PMOp) :
    (applyOps ops (construct d0 c)).originalData = d0 ∧
    resetState (applyOps ops (construct d0 c)) = resetState (construct d0 c) := by
  obtain ⟨h1, h2⟩ := applyOps_frame ops (construct d0 c)
  refine ⟨h1, ?_⟩
  unfold resetState renderStateUpdate
  rw [show (construct d0 c).originalData = d0 from rfl] at h1
  simp only [h1, h2]
  rfl

/-! ## C1 — failure behavior of the connection router -/

theorem nodeCoord_isSome_of_mem (c : Config) {d : List Person} {pid : String}
    (h : ∃ q ∈ d, q.id = pid) : (nodeCoord c d pid).isSome = true := by
  obtain ⟨q, hq, hid⟩ := h
  unfold nodeCoord
  have hf : (d.reverse.find? fun p => p.id = pid).isSome = true :=
    List.find?_isSome.mpr ⟨q, List.mem_reverse.mpr hq, by simp [hid]⟩
  obtain ⟨r, hr⟩ := Option.isSome_iff_exists.mp hf
  simp [hr]

theorem nodeCoord_of_nodup (c : Config) {d : List Person} {p : Person}
    (hnd : (d.map Person.id).Nodup) (hp : p ∈ d) :
    nodeCoord c d p.id = some (gridToPixel c p.posX p.posY) := by
  unfold nodeCoord
  have hf : (d.reverse.find? fun q => q.id = p.id).isSome = true :=
    List.find?_isSome.mpr ⟨p, List.mem_reverse.mpr hp, by simp⟩
  obtain ⟨r, hr⟩ := Option.isSome_iff_exists.mp hf
  have hrid : r.id = p.id := by simpa using List.find?_some hr
  have hrmem : r ∈ d := List.mem_reverse.mp (List.mem_of_find?_eq_some hr)
  rw [hr, List.inj_on_of_nodup_map hnd hrmem hp hrid]
  rfl

theorem bucketInsert_from {d : List Person} {bs : List (String × List String)}
    {key cid : String}
    (hbs : ∀ b ∈ bs, bucketFrom d b)
    (hkey : ∃ p ∈ d, ∃ l, p.parents = some l ∧ l.length = 2 ∧ key = joinDash (sortJS l))
    (hcid : ∃ p ∈ d, p.id = cid) :
    ∀ b ∈ bucketInsert bs key cid, bucketFrom d b := by
  intro b hb
  unfold bucketInsert at hb
  by_cases hany : (bs.any fun b => b.1 = key) = true
  · rw [if_pos hany] at hb
    obtain ⟨b0, hb0, hmap⟩ := List.mem_map.mp hb
    by_cases hb0k : b0.1 = key
    · rw [if_pos hb0k] at hmap
      subst hmap
      refine ⟨(hbs b0 hb0).1, fun q hq => ?_⟩
      rcases List.mem_append.mp hq with hold | hnew
      · exact (hbs b0 hb0).2 q hold
      · rw [List.mem_singleton.mp hnew]
        exact hcid
    · rw [if_neg hb0k] at hmap
      subst hmap
      exact hbs b0 hb0
  · rw [if_neg hany] at hb
    rcases List.mem_append.mp hb with hold | hnew
    · exact hbs b hold
    · rw [List.mem_singleton.mp hnew]
      refine ⟨hkey, fun q hq => ?_⟩
      rw [List.mem_singleton.mp hq]
      exact hcid

theorem childrenByParents_from (d : List Person) :
    ∀ b ∈ childrenByParents d, bucketFrom d b := by
  unfold childrenByParents
  suffices h : ∀ (l : List Person) (acc : List (String × List String)),
      (∀ p ∈ l, p ∈ d) → (∀ b ∈ acc, bucketFrom d b) →
      ∀ b ∈ l.foldl (fun bs p =>
        match p.parents with
        | some l => if l.length = 2 then bucketInsert bs (joinDash (sortJS l)) p.id else bs
        | none => bs) acc, bucketFrom d b by
    exact h d [] (fun p hp => hp) (by simp)
  intro l
  induction' l with p rest ih
  · intro acc _ hacc
    simpa using hacc
  · intro acc hl hacc
    rw [List.foldl_cons]
    refine ih _ (fun q hq => hl q (by simp [hq])) ?_
    cases hpar : p.parents with
    | none => simpa [hpar] using hacc
    | some lpar =>
      by_cases hlen : lpar.length = 2
      · simp only [hpar, hlen, if_pos]
        exact bucketInsert_from hacc ⟨p, hl p (by simp), lpar, hpar, hlen, rfl⟩
          ⟨p, hl p (by simp), rfl⟩
      · simpa [hpar, hlen] using hacc

theorem coordsOf_isSome (c : Config) (d : List Person) {ids : List String}
    (h : ∀ x ∈ ids, (nodeCoord c d x).isSome = true) :
    (coordsOf c d ids).isSome = true := by
  induction' ids with x rest ih
  · rfl
  · obtain ⟨xy, hxy⟩ := Option.isSome_iff_exists.mp (h x (by simp))
    obtain ⟨xs, hxs⟩ := Option.isSome_iff_exists.mp (ih fun y hy => h y (by simp [hy]))
    rw [coordsOf, hxy, hxs]
    rfl

/-- A two-element list has a two-element normal form. -/
theorem length_two_form {l : List String} (h : l.length = 2) :
    ∃ a b, l = [a, b] := by
  match l, h with
  | [a, b], _ => exact ⟨a, b, rfl⟩

theorem sibshipCmdsFor_isSome (c : Config) (d : List Person) (b : String × List String)
    (hb : bucketFrom d b) (hpar : parentsResolvable d) :
    (sibshipCmdsFor c d b).isSome = true := by
  obtain ⟨⟨p, hp, l, hl, hlen, hkey⟩, hch⟩ := hb
  have hres := hpar p hp l hl hlen
  have hslen : (sortJS l).length = 2 := by rw [sortJS_length, hlen]
  obtain ⟨s1, s2, hs⟩ := length_two_form hslen
  have hs1 : s1 ∈ l := mem_sortJS.mp (hs ▸ (by simp : s1 ∈ [s1, s2]))
  have hs2 : s2 ∈ l := mem_sortJS.mp (hs ▸ (by simp : s2 ∈ [s1, s2]))
  have hsplit : splitDash b.1 = [s1, s2] := by
    rw [hkey, hs, splitDash_joinDash_pair (hres s1 hs1).1 (hres s2 hs2).1]
  obtain ⟨c1, hc1⟩ := Option.isSome_iff_exists.mp
    (nodeCoord_isSome_of_mem c (hres s1 hs1).2)
  obtain ⟨c2, hc2⟩ := Option.isSome_iff_exists.mp
    (nodeCoord_isSome_of_mem c (hres s2 hs2).2)
  obtain ⟨cs, hcs⟩ := Option.isSome_iff_exists.mp
    (coordsOf_isSome c d fun x hx => nodeCoord_isSome_of_mem c (hch x hx))
  rw [sibshipCmdsFor, hsplit]
  simp only [hc1, hc2, hcs]
  cases cs.map Prod.fst <;> rfl

theorem sibshipAll_isSome (c : Config) (d : List Person)
    {bl : List (String × List String)}
    (h : ∀ b ∈ bl, (sibshipCmdsFor c d b).isSome = true) :
    (sibshipAll c d bl).isSome = true := by
  induction' bl with b rest ih
  · rfl
  · obtain ⟨cs, hcs⟩ := Option.isSome_iff_exists.mp (h b (by simp))
    obtain ⟨more, hmore⟩ := Option.isSome_iff_exists.mp (ih fun q hq => h q (by simp [hq]))
    rw [sibshipAll, hcs, hmore]
    rfl

/-- C1 (amended): a render pass tolerates any `mate` anomaly — an
unresolvable mate reference merely omits that connection — and succeeds
whenever every two-element parents pair of the (optimized) dataset consists
of `'-'`-free ids of persons present in the dataset.  A parents id with no
entry in the Coordinate Index, however, makes the sibship loop dereference a
missing entry and the render pass fails (see the counterexample), contrary
to the claim that no data anomaly can fail a render pass. -/
theorem C1_render_tolerance (s : PMState)
    (hpar : parentsResolvable (optimizeLayout s.config s.data)) :
    (renderResult s).isSome = true := by
  unfold renderResult connectionCmds
  simp only [Option.isSome_map']
  apply sibshipAll_isSome
  intro b hb
  exact sibshipCmdsFor_isSome _ _ _ (childrenByParents_from _ b hb) hpar

/-- C1 counterexample: the claim states a parents reference with no resolved
coordinate is skipped and the render pass completes.  Rendering the
one-person dataset whose parents pair names the absent ids `g1`, `g2` fails
(the sibship loop dereferences the missing Coordinate Index entry and the
pass throws). -/
theorem C1_unresolved_parent_counterexample :
    renderResult (construct [ghostChild] defaults) = none := by decide

/-- Witness for C1: the dataset with a dangling `mate` reference and a
resolvable parents pair renders successfully. -/
theorem C1_render_tolerance_witness : (renderResult stateC1).isSome = true :=
  C1_render_tolerance stateC1 (by decide)

/-! ## C5 and C7 — the partnership loop -/

theorem pCount_append (K : String) (l1 l2 : List Cmd) :
    pCount K (l1 ++ l2) = pCount K l1 + pCount K l2 := List.countP_append _ _ _

theorem dCount_append (K : String) (l1 l2 : List Cmd) :
    dCount K (l1 ++ l2) = dCount K l1 + dCount K l2 := List.countP_append _ _ _

theorem pCount_emit (K kk : String) (a1 a2 a3 a4 x y1 y2 : ℚ) (cond : Prop)
    [Decidable cond] :
    pCount K (Cmd.partnershipLine kk a1 a2 a3 a4 ::
      (if cond then [Cmd.dropLine kk x y1 y2] else [])) = if kk = K then 1 else 0 := by
  unfold pCount
  rw [List.countP_cons]
  by_cases hc : cond
  · rw [if_pos hc]
    by_cases hKeq : kk = K <;> simp [isPLineKey, hKeq]
  · rw [if_neg hc]
    by_cases hKeq : kk = K <;> simp [isPLineKey, hKeq]

theorem dCount_emit (K kk : String) (a1 a2 a3 a4 x y1 y2 : ℚ) (cond : Prop)
    [Decidable cond] :
    dCount K (Cmd.partnershipLine kk a1 a2 a3 a4 ::
      (if cond then [Cmd.dropLine kk x y1 y2] else [])) =
      if kk = K ∧ cond then 1 else 0 := by
  unfold dCount
  rw [List.countP_cons]
  by_cases hc : cond
  · rw [if_pos hc]
    by_cases hKeq : kk = K <;> simp [isDLineKey, hKeq, hc]
  · rw [if_neg hc]
    by_cases hKeq : kk = K <;> simp [isDLineKey, hKeq, hc]

/-- Master invariant of the partnership loop, for a fixed key `K` and an
endpoint predicate `Q` satisfied by every potential emission of `K`:
the loop emits exactly one partnership line per drawn key, the drop line of
`K` accompanies it exactly when `K` also indexes a sibling bucket, every
emitted `K`-line satisfies `Q`, every drop spans half the vertical spacing,
a drawn key has an emitter, the drawn set grows monotonically, and every
emitter of `K` in the remaining persons forces `K` to be drawn. -/
theorem partnershipFold_spec (c : Config) (d : List Person)
    (bks : List (String × List String)) (K : String) (Q : ℚ → ℚ → ℚ → ℚ → Prop)
    (hQ : ∀ p ∈ d, ∀ m, p.mate = some m → K = joinDash (sortJS [p.id, m]) →
      ∀ p1 p2, nodeCoord c d p.id = some p1 → nodeCoord c d m = some p2 →
        Q ((if p1.1 < p2.1 then p1 else p2).1 + c.nodeWidth / 2)
          (if p1.1 < p2.1 then p1 else p2).2
          ((if p1.1 < p2.1 then p2 else p1).1 - c.nodeWidth / 2)
          (if p1.1 < p2.1 then p2 else p1).2) :
    ∀ (l : List Person) (acc : List String × List Cmd),
      (∀ p ∈ l, p ∈ d) →
      pCount K acc.2 = (if K ∈ acc.1 then 1 else 0) →
      dCount K acc.2 =
        (if K ∈ acc.1 ∧ (bks.any fun b => b.1 = K) = true then 1 else 0) →
      (∀ x1 y1 x2 y2, Cmd.partnershipLine K x1 y1 x2 y2 ∈ acc.2 → Q x1 y1 x2 y2) →
      (∀ x y1 y2, Cmd.dropLine K x y1 y2 ∈ acc.2 → y2 = y1 + c.vSpacing / 2) →
      (K ∈ acc.1 → ∃ p ∈ d, emitterFor c d K p) →
      (pCount K (l.foldl (partnershipStep c d bks) acc).2 =
        if K ∈ (l.foldl (partnershipStep c d bks) acc).1 then 1 else 0) ∧
      (dCount K (l.foldl (partnershipStep c d bks) acc).2 =
        if K ∈ (l.foldl (partnershipStep c d bks) acc).1 ∧
            (bks.any fun b => b.1 = K) = true then 1 else 0) ∧
      (∀ x1 y1 x2 y2,
        Cmd.partnershipLine K x1 y1 x2 y2 ∈ (l.foldl (partnershipStep c d bks) acc).2 →
        Q x1 y1 x2 y2) ∧
      (∀ x y1 y2, Cmd.dropLine K x y1 y2 ∈ (l.foldl (partnershipStep c d bks) acc).2 →
        y2 = y1 + c.vSpacing / 2) ∧
      (K ∈ (l.foldl (partnershipStep c d bks) acc).1 → ∃ p ∈ d, emitterFor c d K p) ∧
      (∀ k, k ∈ acc.1 → k ∈ (l.foldl (partnershipStep c d bks) acc).1) ∧
      (∀ p ∈ l, emitterFor c d K p → K ∈ (l.foldl (partnershipStep c d bks) acc).1) := by
  intro l
  induction' l with p rest ih
  · intro acc hl h1 h2 h3 h4 h5
    exact ⟨h1, h2, h3, h4, h5, fun k hk => hk, fun q hq => absurd hq (List.not_mem_nil q)⟩
  · intro acc hl h1 h2 h3 h4 h5
    rw [List.foldl_cons]
    have hpd : p ∈ d := hl p (by simp)
    have hrest : ∀ q ∈ rest, q ∈ d := fun q hq => hl q (by simp [hq])
    cases hm : p.mate with
    | none =>
      have hstep : partnershipStep c d bks acc p = acc := by
        simp only [partnershipStep, hm]
      rw [hstep]
      obtain ⟨g1, g2, g3, g4, g5, g6, g7⟩ := ih acc hrest h1 h2 h3 h4 h5
      refine ⟨g1, g2, g3, g4, g5, g6, fun q hq hqe => ?_⟩
      rcases List.mem_cons.mp hq with rfl | hq'
      · obtain ⟨m, hm', _⟩ := hqe
        rw [hm] at hm'
        exact absurd hm' (by simp)
      · exact g7 q hq' hqe
    | some m =>
      by_cases hk : joinDash (sortJS [p.id, m]) ∈ acc.1
      · have hstep : partnershipStep c d bks acc p = acc := by
          simp only [partnershipStep, hm]
          rw [if_pos hk]
        rw [hstep]
        obtain ⟨g1, g2, g3, g4, g5, g6, g7⟩ := ih acc hrest h1 h2 h3 h4 h5
        refine ⟨g1, g2, g3, g4, g5, g6, fun q hq hqe => ?_⟩
        rcases List.mem_cons.mp hq with rfl | hq'
        · obtain ⟨m', hm', hK, -, -⟩ := hqe
          rw [hm] at hm'
          rw [← Option.some.inj hm'] at hK
          exact g6 K (by rw [hK]; exact hk)
        · exact g7 q hq' hqe
      · cases hc1 : nodeCoord c d p.id with
        | none =>
          have hstep : partnershipStep c d bks acc p = acc := by
            simp only [partnershipStep, hm]
            rw [if_neg hk, hc1]
          rw [hstep]
          obtain ⟨g1, g2, g3, g4, g5, g6, g7⟩ := ih acc hrest h1 h2 h3 h4 h5
          refine ⟨g1, g2, g3, g4, g5, g6, fun q hq hqe => ?_⟩
          rcases List.mem_cons.mp hq with rfl | hq'
          · obtain ⟨m', hm', hK, hs1, hs2⟩ := hqe
            rw [hc1] at hs1
            exact absurd hs1 (by simp)
          · exact g7 q hq' hqe
        | some p1 =>
          cases hc2 : nodeCoord c d m with
          | none =>
            have hstep : partnershipStep c d bks acc p = acc := by
              simp only [partnershipStep, hm]
              rw [if_neg hk, hc1, hc2]
            rw [hstep]
            obtain ⟨g1, g2, g3, g4, g5, g6, g7⟩ := ih acc hrest h1 h2 h3 h4 h5
            refine ⟨g1, g2, g3, g4, g5, g6, fun q hq hqe => ?_⟩
            rcases List.mem_cons.mp hq with rfl | hq'
            · obtain ⟨m', hm', hK, hs1, hs2⟩ := hqe
              rw [hm] at hm'
              rw [← Option.some.inj hm', hc2] at hs2
              exact absurd hs2 (by simp)
            · exact g7 q hq' hqe
          | some p2 =>
            have hstep : partnershipStep c d bks acc p =
                (acc.1 ++ [joinDash (sortJS [p.id, m])],
                 acc.2 ++ Cmd.partnershipLine (joinDash (sortJS [p.id, m]))
                     ((if p1.1 < p2.1 then p1 else p2).1 + c.nodeWidth / 2)
                     (if p1.1 < p2.1 then p1 else p2).2
                     ((if p1.1 < p2.1 then p2 else p1).1 - c.nodeWidth / 2)
                     (if p1.1 < p2.1 then p2 else p1).2 ::
                   (if (bks.any fun b => b.1 = joinDash (sortJS [p.id, m])) = true then
                      [Cmd.dropLine (joinDash (sortJS [p.id, m])) ((p1.1 + p2.1) / 2) p1.2
                        (p1.2 + c.vSpacing / 2)]
                    else [])) := by
              simp only [partnershipStep, hm]
              rw [if_neg hk, hc1, hc2]
            rw [hstep]
            have hmemnew : ∀ k : String, k ∈ acc.1 ++ [joinDash (sortJS [p.id, m])] ↔
                k ∈ acc.1 ∨ k = joinDash (sortJS [p.id, m]) := by
              intro k
              rw [List.mem_append, List.mem_singleton]
            have inv1 : pCount K (acc.2 ++ Cmd.partnershipLine (joinDash (sortJS [p.id, m]))
                  ((if p1.1 < p2.1 then p1 else p2).1 + c.nodeWidth / 2)
                  (if p1.1 < p2.1 then p1 else p2).2
                  ((if p1.1 < p2.1 then p2 else p1).1 - c.nodeWidth / 2)
                  (if p1.1 < p2.1 then p2 else p1).2 ::
                (if (bks.any fun b => b.1 = joinDash (sortJS [p.id, m])) = true then
                  [Cmd.dropLine (joinDash (sortJS [p.id, m])) ((p1.1 + p2.1) / 2) p1.2
                    (p1.2 + c.vSpacing / 2)]
                else [])) =
                if K ∈ acc.1 ++ [joinDash (sortJS [p.id, m])] then 1 else 0 := by
              rw [pCount_append, pCount_emit, h1]
              by_cases hKeq : joinDash (sortJS [p.id, m]) = K
              · rw [if_neg (show K ∉ acc.1 from hKeq ▸ hk), if_pos hKeq,
                  if_pos ((hmemnew K).mpr (Or.inr hKeq.symm))]
              · rw [if_neg hKeq]
                by_cases hKin : K ∈ acc.1
                · rw [if_pos hKin, if_pos ((hmemnew K).mpr (Or.inl hKin))]
                · rw [if_neg hKin, if_neg (show K ∉ acc.1 ++ [joinDash (sortJS [p.id, m])]
                      from fun hcon => by
                    rcases (hmemnew K).mp hcon with h | h
                    · exact hKin h
                    · exact hKeq h.symm)]
            have inv2 : dCount K (acc.2 ++ Cmd.partnershipLine (joinDash (sortJS [p.id, m]))
                  ((if p1.1 < p2.1 then p1 else p2).1 + c.nodeWidth / 2)
                  (if p1.1 < p2.1 then p1 else p2).2
                  ((if p1.1 < p2.1 then p2 else p1).1 - c.nodeWidth / 2)
                  (if p1.1 < p2.1 then p2 else p1).2 ::
                (if (bks.any fun b => b.1 = joinDash (sortJS [p.id, m])) = true then
                  [Cmd.dropLine (joinDash (sortJS [p.id, m])) ((p1.1 + p2.1) / 2) p1.2
                    (p1.2 + c.vSpacing / 2)]
                else [])) =
                if K ∈ acc.1 ++ [joinDash (sortJS [p.id, m])] ∧
                    (bks.any fun b => b.1 = K) = true then 1 else 0 := by
              rw [dCount_append, dCount_emit, h2]
              by_cases hKeq : joinDash (sortJS [p.id, m]) = K
              · rw [if_neg (show ¬(K ∈ acc.1 ∧ (bks.any fun b => b.1 = K) = true)
                    from fun hcon => (hKeq ▸ hk : K ∉ acc.1) hcon.1)]
                by_cases hbk : (bks.any fun b => b.1 = K) = true
                · rw [if_pos (show joinDash (sortJS [p.id, m]) = K ∧
                      (bks.any fun b => b.1 = joinDash (sortJS [p.id, m])) = true
                      from ⟨hKeq, by rw [hKeq]; exact hbk⟩),
                    if_pos (show K ∈ acc.1 ++ [joinDash (sortJS [p.id, m])] ∧
                      (bks.any fun b => b.1 = K) = true
                      from ⟨(hmemnew K).mpr (Or.inr hKeq.symm), hbk⟩)]
                · rw [if_neg (show ¬(joinDash (sortJS [p.id, m]) = K ∧
                      (bks.any fun b => b.1 = joinDash (sortJS [p.id, m])) = true)
                      from fun hcon => hbk (hcon.1 ▸ hcon.2)),
                    if_neg (show ¬(K ∈ acc.1 ++ [joinDash (sortJS [p.id, m])] ∧
                      (bks.any fun b => b.1 = K) = true)
                      from fun hcon => hbk hcon.2)]
              · rw [if_neg (show ¬(joinDash (sortJS [p.id, m]) = K ∧
                    (bks.any fun b => b.1 = joinDash (sortJS [p.id, m])) = true)
                    from fun hcon => hKeq hcon.1)]
                by_cases hKin : K ∈ acc.1
                · by_cases hbk : (bks.any fun b => b.1 = K) = true
                  · rw [if_pos (show K ∈ acc.1 ∧ (bks.any fun b => b.1 = K) = true
                        from ⟨hKin, hbk⟩),
                      if_pos (show K ∈ acc.1 ++ [joinDash (sortJS [p.id, m])] ∧
                        (bks.any fun b => b.1 = K) = true
                        from ⟨(hmemnew K).mpr (Or.inl hKin), hbk⟩)]
                  · rw [if_neg (show ¬(K ∈ acc.1 ∧ (bks.any fun b => b.1 = K) = true)
                        from fun hcon => hbk hcon.2),
                      if_neg (show ¬(K ∈ acc.1 ++ [joinDash (sortJS [p.id, m])] ∧
                        (bks.any fun b => b.1 = K) = true)
                        from fun hcon => hbk hcon.2)]
                · rw [if_neg (show ¬(K ∈ acc.1 ∧ (bks.any fun b => b.1 = K) = true)
                      from fun hcon => hKin hcon.1),
                    if_neg (show ¬(K ∈ acc.1 ++ [joinDash (sortJS [p.id, m])] ∧
                      (bks.any fun b => b.1 = K) = true)
                      from fun hcon => by
                      rcases (hmemnew K).mp hcon.1 with h | h
                      · exact hKin h
                      · exact hKeq h.symm)]
            have inv3 : ∀ x1 y1 x2 y2,
                Cmd.partnershipLine K x1 y1 x2 y2 ∈ acc.2 ++
                  Cmd.partnershipLine (joinDash (sortJS [p.id, m]))
                      ((if p1.1 < p2.1 then p1 else p2).1 + c.nodeWidth / 2)
                      (if p1.1 < p2.1 then p1 else p2).2
                      ((if p1.1 < p2.1 then p2 else p1).1 - c.nodeWidth / 2)
                      (if p1.1 < p2.1 then p2 else p1).2 ::
                    (if (bks.any fun b => b.1 = joinDash (sortJS [p.id, m])) = true then
                      [Cmd.dropLine (joinDash (sortJS [p.id, m])) ((p1.1 + p2.1) / 2) p1.2
                        (p1.2 + c.vSpacing / 2)]
                    else []) → Q x1 y1 x2 y2 := by
              intro x1 y1 x2 y2 hmem
              rcases List.mem_append.mp hmem with hold | hnew
              · exact h3 x1 y1 x2 y2 hold
              · rcases List.mem_cons.mp hnew with hline | hdrop
                · obtain ⟨hKeq, hx1, hy1, hx2, hy2⟩ := Cmd.partnershipLine.inj hline
                  rw [hx1, hy1, hx2, hy2]
                  exact hQ p hpd m hm hKeq p1 p2 hc1 hc2
                · exfalso
                  by_cases hbk : (bks.any fun b => b.1 = joinDash (sortJS [p.id, m])) = true
                  · rw [if_pos hbk] at hdrop
                    exact absurd (List.mem_singleton.mp hdrop) (by simp)
                  · rw [if_neg hbk] at hdrop
                    exact absurd hdrop (List.not_mem_nil _)
            have inv4 : ∀ x y1 y2,
                Cmd.dropLine K x y1 y2 ∈ acc.2 ++
                  Cmd.partnershipLine (joinDash (sortJS [p.id, m]))
                      ((if p1.1 < p2.1 then p1 else p2).1 + c.nodeWidth / 2)
                      (if p1.1 < p2.1 then p1 else p2).2
                      ((if p1.1 < p2.1 then p2 else p1).1 - c.nodeWidth / 2)
                      (if p1.1 < p2.1 then p2 else p1).2 ::
                    (if (bks.any fun b => b.1 = joinDash (sortJS [p.id, m])) = true then
                      [Cmd.dropLine (joinDash (sortJS [p.id, m])) ((p1.1 + p2.1) / 2) p1.2
                        (p1.2 + c.vSpacing / 2)]
                    else []) → y2 = y1 + c.vSpacing / 2 := by
              intro x y1 y2 hmem
              rcases List.mem_append.mp hmem with hold | hnew
              · exact h4 x y1 y2 hold
              · rcases List.mem_cons.mp hnew with hline | hdrop
                · exact absurd hline (by simp)
                · by_cases hbk : (bks.any fun b => b.1 = joinDash (sortJS [p.id, m])) = true
                  · rw [if_pos hbk] at hdrop
                    obtain ⟨-, -, hy1, hy2⟩ := Cmd.dropLine.inj (List.mem_singleton.mp hdrop)
                    rw [hy1, hy2]
                  · rw [if_neg hbk] at hdrop
                    exact absurd hdrop (List.not_mem_nil _)
            have inv5 : K ∈ acc.1 ++ [joinDash (sortJS [p.id, m])] →
                ∃ q ∈ d, emitterFor c d K q := by
              intro hKin
              rcases List.mem_append.mp hKin with hold | hnew
              · exact h5 hold
              · exact ⟨p, hpd, m, hm, List.mem_singleton.mp hnew, by simp [hc1], by simp [hc2]⟩
            obtain ⟨g1, g2, g3, g4, g5, g6, g7⟩ :=
              ih (acc.1 ++ [joinDash (sortJS [p.id, m])],
                  acc.2 ++ Cmd.partnershipLine (joinDash (sortJS [p.id, m]))
                      ((if p1.1 < p2.1 then p1 else p2).1 + c.nodeWidth / 2)
                      (if p1.1 < p2.1 then p1 else p2).2
                      ((if p1.1 < p2.1 then p2 else p1).1 - c.nodeWidth / 2)
                      (if p1.1 < p2.1 then p2 else p1).2 ::
                    (if (bks.any fun b => b.1 = joinDash (sortJS [p.id, m])) = true then
                      [Cmd.dropLine (joinDash (sortJS [p.id, m])) ((p1.1 + p2.1) / 2) p1.2
                        (p1.2 + c.vSpacing / 2)]
                    else []))
                hrest inv1 inv2 inv3 inv4 inv5
            refine ⟨g1, g2, g3, g4, g5,
              fun k hkin => g6 k (List.mem_append_left _ hkin), fun q hq hqe => ?_⟩
            rcases List.mem_cons.mp hq with rfl | hq'
            · obtain ⟨m', hm', hK, -, -⟩ := hqe
              rw [hm] at hm'
              rw [← Option.some.inj hm'] at hK
              exact g6 K (List.mem_append_right _ (by simp [hK]))
            · exact g7 q hq' hqe

/-- Two joined sorted pairs of `'-'`-free ids agree exactly when the
underlying unordered pairs agree. -/
theorem key_pair_eq {a b a' b' : String} (ha : dashFree a) (hb : dashFree b)
    (ha' : dashFree a') (hb' : dashFree b')
    (h : joinDash (sortJS [a, b]) = joinDash (sortJS [a', b'])) :
    (a = a' ∧ b = b') ∨ (a = b' ∧ b = a') := by
  rw [sortJS_pair, sortJS_pair] at h
  by_cases h1 : strLeB a b = true <;> by_cases h2 : strLeB a' b' = true
  · rw [if_pos h1, if_pos h2] at h
    exact Or.inl (joinDash_pair_inj ha hb ha' hb' h)
  · rw [if_pos h1, if_neg h2] at h
    exact Or.inr (joinDash_pair_inj ha hb hb' ha' h)
  · rw [if_neg h1, if_pos h2] at h
    obtain ⟨e1, e2⟩ := joinDash_pair_inj hb ha ha' hb' h
    exact Or.inr ⟨e2, e1⟩
  · rw [if_neg h1, if_neg h2] at h
    obtain ⟨e1, e2⟩ := joinDash_pair_inj hb ha hb' ha' h
    exact Or.inl ⟨e2, e1⟩

/-- C5 (amended): for every unordered pair of persons `{A, B}` of a dataset
with pairwise distinct, `'-'`-free ids and `'-'`-free mate references,
linked by mate references in either or both directions, the render pass
draws exactly one partnership line, running from the right edge of the
leftmost partner's node to the left edge of the rightmost; and for a mate
reference with no resolved entry in the Coordinate Index no line with its
key is drawn at all.  (Without the `'-'`-free proviso two distinct pairs can
collide on one dedup key and the later pair draws nothing — see the
counterexample.) -/
theorem C5_partnership_once (c : Config) (d : List Person) (A B : Person)
    (hnd : (d.map Person.id).Nodup)
    (hdf : ∀ p ∈ d, dashFree p.id ∧ ∀ m, p.mate = some m → dashFree m)
    (hA : A ∈ d) (hB : B ∈ d) (hABne : A.id ≠ B.id)
    (hmate : A.mate = some B.id ∨ B.mate = some A.id)
    (hx : (gridToPixel c A.posX A.posY).1 < (gridToPixel c B.posX B.posY).1) :
    pCount (joinDash (sortJS [A.id, B.id])) (partnershipCmds c d) = 1 ∧
    (∀ x1 y1 x2 y2,
      Cmd.partnershipLine (joinDash (sortJS [A.id, B.id])) x1 y1 x2 y2 ∈
        partnershipCmds c d →
      x1 = (gridToPixel c A.posX A.posY).1 + c.nodeWidth / 2 ∧
      y1 = (gridToPixel c A.posX A.posY).2 ∧
      x2 = (gridToPixel c B.posX B.posY).1 - c.nodeWidth / 2 ∧
      y2 = (gridToPixel c B.posX B.posY).2) ∧
    (∀ p ∈ d, ∀ m, p.mate = some m → nodeCoord c d m = none →
      pCount (joinDash (sortJS [p.id, m])) (partnershipCmds c d) = 0) := by
  have hcA : nodeCoord c d A.id = some (gridToPixel c A.posX A.posY) :=
    nodeCoord_of_nodup c hnd hA
  have hcB : nodeCoord c d B.id = some (gridToPixel c B.posX B.posY) :=
    nodeCoord_of_nodup c hnd hB
  have hQ : ∀ p ∈ d, ∀ m, p.mate = some m →
      joinDash (sortJS [A.id, B.id]) = joinDash (sortJS [p.id, m]) →
      ∀ p1 p2, nodeCoord c d p.id = some p1 → nodeCoord c d m = some p2 →
        ((if p1.1 < p2.1 then p1 else p2).1 + c.nodeWidth / 2 =
            (gridToPixel c A.posX A.posY).1 + c.nodeWidth / 2 ∧
          (if p1.1 < p2.1 then p1 else p2).2 = (gridToPixel c A.posX A.posY).2 ∧
          (if p1.1 < p2.1 then p2 else p1).1 - c.nodeWidth / 2 =
            (gridToPixel c B.posX B.posY).1 - c.nodeWidth / 2 ∧
          (if p1.1 < p2.1 then p2 else p1).2 = (gridToPixel c B.posX B.posY).2) := by
    intro p hp m hm hK p1 p2 hp1 hp2
    rcases key_pair_eq (hdf A hA).1 (hdf B hB).1 (hdf p hp).1 ((hdf p hp).2 m hm) hK with
      ⟨e1, e2⟩ | ⟨e1, e2⟩
    · have hpA : p = A := List.inj_on_of_nodup_map hnd hp hA e1.symm
      subst hpA
      rw [hcA] at hp1
      rw [← e2, hcB] at hp2
      rw [← Option.some.inj hp1, ← Option.some.inj hp2]
      simp [if_pos hx]
    · have hpB : p = B := List.inj_on_of_nodup_map hnd hp hB e2.symm
      subst hpB
      rw [hcB] at hp1
      rw [← e1, hcA] at hp2
      rw [← Option.some.inj hp1, ← Option.some.inj hp2]
      simp [if_neg (lt_asymm hx)]
  obtain ⟨g1, -, g3, -, -, -, g7⟩ :=
    partnershipFold_spec c d (childrenByParents d) (joinDash (sortJS [A.id, B.id]))
      (fun x1 y1 x2 y2 => x1 = (gridToPixel c A.posX A.posY).1 + c.nodeWidth / 2 ∧
        y1 = (gridToPixel c A.posX A.posY).2 ∧
        x2 = (gridToPixel c B.posX B.posY).1 - c.nodeWidth / 2 ∧
        y2 = (gridToPixel c B.posX B.posY).2)
      (fun p hp m hm hK p1 p2 hp1 hp2 => by
        obtain ⟨q1, q2, q3, q4⟩ := hQ p hp m hm hK p1 p2 hp1 hp2
        exact ⟨by rw [q1], q2, by rw [q3], q4⟩)
      d ([], []) (fun p hp => hp) (by simp [pCount]) (by simp [dCount])
      (by simp) (by simp) (fun h => absurd h (List.not_mem_nil _))
  have hKin : joinDash (sortJS [A.id, B.id]) ∈
      (d.foldl (partnershipStep c d (childrenByParents d)) ([], [])).1 := by
    rcases hmate with hmA | hmB
    · exact g7 A hA ⟨B.id, hmA, rfl, by simp [hcA], by simp [hcB]⟩
    · exact g7 B hB ⟨A.id, hmB, congrArg joinDash (sortJS_pair_comm A.id B.id),
        by simp [hcB], by simp [hcA]⟩
  refine ⟨?_, ?_, ?_⟩
  · show pCount _ (d.foldl (partnershipStep c d (childrenByParents d)) ([], [])).2 = 1
    rw [g1, if_pos hKin]
  · exact g3
  · intro p hp m hm hnone
    obtain ⟨g1', -, -, -, g5', -, -⟩ :=
      partnershipFold_spec c d (childrenByParents d) (joinDash (sortJS [p.id, m]))
        (fun _ _ _ _ => True) (fun _ _ _ _ _ _ _ _ _ => trivial)
        d ([], []) (fun q hq => hq) (by simp [pCount]) (by simp [dCount])
        (by simp) (by simp) (fun h => absurd h (List.not_mem_nil _))
    have hnotin : joinDash (sortJS [p.id, m]) ∉
        (d.foldl (partnershipStep c d (childrenByParents d)) ([], [])).1 := by
      intro hin
      obtain ⟨q, hq, mq, hmq, hKq, hs1, hs2⟩ := g5' hin
      rcases key_pair_eq (hdf p hp).1 ((hdf p hp).2 m hm) (hdf q hq).1
          ((hdf q hq).2 mq hmq) hKq with ⟨e1, e2⟩ | ⟨e1, e2⟩
      · rw [← e2, hnone] at hs2
        exact absurd hs2 (by simp)
      · have := @nodeCoord_isSome_of_mem c d m ⟨q, hq, e2.symm⟩
        rw [hnone] at this
        exact absurd this (by simp)
    show pCount _ (d.foldl (partnershipStep c d (childrenByParents d)) ([], [])).2 = 0
    rw [g1', if_neg hnotin]

/-- C7 (amended): for every key `K`, the partnership loop emits the family
drop line of `K` exactly when it also draws the partnership line of `K`
(`K` appears once as a drawn partnership key) and `K` indexes a sibling
bucket; the drop line descends exactly half the vertical spacing below the
drawing partner's row.  The drop line is therefore not keyed purely on the
shared `parents` pair: a sibling group whose parents lack a matching `mate`
edge gets no drop line (see the counterexample), although its bus and
per-child lines are still drawn. -/
theorem C7_drop_needs_partnership (c : Config) (d : List Person) (K : String) :
    (dCount K (partnershipCmds c d) =
      if pCount K (partnershipCmds c d) = 1 ∧
          ((childrenByParents d).any fun b => b.1 = K) = true then 1 else 0) ∧
    (∀ x y1 y2, Cmd.dropLine K x y1 y2 ∈ partnershipCmds c d →
      y2 = y1 + c.vSpacing / 2) := by
  obtain ⟨g1, g2, -, g4, -, -, -⟩ :=
    partnershipFold_spec c d (childrenByParents d) K (fun _ _ _ _ => True)
      (fun _ _ _ _ _ _ _ _ _ => trivial)
      d ([], []) (fun p hp => hp) (by simp [pCount]) (by simp [dCount])
      (by simp) (by simp) (fun h => absurd h (List.not_mem_nil _))
  constructor
  · show dCount K (d.foldl (partnershipStep c d (childrenByParents d)) ([], [])).2 =
      if pCount K (d.foldl (partnershipStep c d (childrenByParents d)) ([], [])).2 = 1 ∧
        ((childrenByParents d).any fun b => b.1 = K) = true then 1 else 0
    rw [g2]
    by_cases hKin : K ∈ (d.foldl (partnershipStep c d (childrenByParents d)) ([], [])).1
    · by_cases hbk : ((childrenByParents d).any fun b => b.1 = K) = true
      · rw [if_pos ⟨hKin, hbk⟩, if_pos ⟨by rw [g1, if_pos hKin], hbk⟩]
      · rw [if_neg (fun hcon => hbk hcon.2), if_neg (fun hcon => hbk hcon.2)]
    · by_cases hbk : ((childrenByParents d).any fun b => b.1 = K) = true
      · rw [if_neg (fun hcon => hKin hcon.1), if_neg (fun hcon => by
          rw [g1, if_neg hKin] at hcon
          exact absurd hcon.1 (by norm_num))]
      · rw [if_neg (fun hcon => hbk hcon.2), if_neg (fun hcon => hbk hcon.2)]
  · exact g4

/-- C5 counterexample: the claim states that every mate-linked pair of
persons gets exactly one partnership line.  With ids containing `'-'`, the
pairs `{a, b-c}` and `{a-b, c}` share the dedup key `"a-b-c"`; the render
pass draws the first pair's line (from x = 75 to x = 125) and then skips the
pair `{Y, Z}` entirely, although `Y.mate = Z.id` and both endpoints resolve —
the expected `{Y, Z}` line (75 ↦ 275, 125 ↦ 325) is never emitted. -/
theorem C5_key_collision_counterexample :
    hyY.mate = some hyZ.id ∧ (nodeCoord defaults dHy hyY.id).isSome = true ∧
    (nodeCoord defaults dHy hyZ.id).isSome = true ∧
    partnershipCmds defaults dHy = [Cmd.partnershipLine "a-b-c" 75 50 125 50] ∧
    ((75 : ℚ), (50 : ℚ), (125 : ℚ), (50 : ℚ)) ≠ ((275 : ℚ), (50 : ℚ), (325 : ℚ), (50 : ℚ)) := by
  refine ⟨rfl, by decide, by decide, by decide, by decide⟩

/-- Witness for C5: the one-sided couple `{A, B}` draws exactly one
partnership line with the expected edge-to-edge endpoints. -/
theorem C5_partnership_once_witness :
    pCount (joinDash (sortJS [cplA.id, cplB.id])) (partnershipCmds defaults dCpl) = 1 ∧
    (∀ x1 y1 x2 y2,
      Cmd.partnershipLine (joinDash (sortJS [cplA.id, cplB.id])) x1 y1 x2 y2 ∈
        partnershipCmds defaults dCpl →
      x1 = (gridToPixel defaults cplA.posX cplA.posY).1 + defaults.nodeWidth / 2 ∧
      y1 = (gridToPixel defaults cplA.posX cplA.posY).2 ∧
      x2 = (gridToPixel defaults cplB.posX cplB.posY).1 - defaults.nodeWidth / 2 ∧
      y2 = (gridToPixel defaults cplB.posX cplB.posY).2) ∧
    (∀ p ∈ dCpl, ∀ m, p.mate = some m → nodeCoord defaults dCpl m = none →
      pCount (joinDash (sortJS [p.id, m])) (partnershipCmds defaults dCpl) = 0) :=
  C5_partnership_once defaults dCpl cplA cplB (by decide) (by decide)
    (by decide) (by decide) (by decide) (Or.inl rfl) (by decide)

/-- C7 counterexample: the claim states the sibship drop line is keyed
purely on the shared parents pair, independent of any mate edge.  For a
resolvable family without a mate edge the connection pass emits the bus and
per-child lines but no drop line at all. -/
theorem C7_drop_without_mate_counterexample :
    connectionCmds defaults dSib =
      some [Cmd.busLine "pa-pb" 150 150 110, Cmd.childDrop "pa-pb" 150 110 145] ∧
    dCount "pa-pb" [Cmd.busLine "pa-pb" 150 150 110, Cmd.childDrop "pa-pb" 150 110 145] = 0 := by
  refine ⟨by decide, by decide⟩

/-! ## C9 — render idempotence -/

theorem sortPairParents_fields (p : Person) :
    (sortPairParents p).id = p.id ∧ (sortPairParents p).name = p.name ∧
    (sortPairParents p).sex = p.sex ∧ (sortPairParents p).posX = p.posX ∧
    (sortPairParents p).posY = p.posY ∧ (sortPairParents p).mate = p.mate ∧
    (sortPairParents p).phenotypes = p.phenotypes ∧
    (sortPairParents p).isProband = p.isProband := by
  cases hp : p.parents with
  | none => simp [sortPairParents, hp]
  | some l => by_cases h : l.length = 2 <;> simp [sortPairParents, hp, h]

theorem drawNodeCmds_sortPairParents (c : Config) (p : Person) :
    drawNodeCmds c (sortPairParents p) = drawNodeCmds c p := by
  cases hp : p.parents with
  | none => simp [sortPairParents, hp]
  | some l =>
    by_cases h : l.length = 2
    · simp only [sortPairParents, hp, if_pos h]
      rfl
    · simp [sortPairParents, hp, h]

theorem nodeCoord_map_sortPairParents (c : Config) (d : List Person) (pid : String) :
    nodeCoord c (d.map sortPairParents) pid = nodeCoord c d pid := by
  unfold nodeCoord
  rw [← List.map_reverse, List.find?_map]
  have hpred : ((fun p => decide (p.id = pid)) ∘ sortPairParents) =
      fun p => decide (p.id = pid) := by
    funext q
    simp [Function.comp, (sortPairParents_fields q).1]
  rw [hpred]
  cases hf : d.reverse.find? fun p => decide (p.id = pid) with
  | none => rfl
  | some q =>
    simp only [Option.map_some']
    rw [(sortPairParents_fields q).2.2.2.1, (sortPairParents_fields q).2.2.2.2.1]

theorem foldl_fun_congr {α β : Type} (f g : β → α → β) (l : List α)
    (h : ∀ b a, f b a = g b a) : ∀ init, l.foldl f init = l.foldl g init := by
  induction' l with a rest ih <;> intro init
  · rfl
  · rw [List.foldl_cons, List.foldl_cons, h, ih]

theorem childrenByParents_map_sortPairParents (d : List Person) :
    childrenByParents (d.map sortPairParents) = childrenByParents d := by
  unfold childrenByParents
  rw [List.foldl_map]
  apply foldl_fun_congr
  intro bs p
  cases hp : p.parents with
  | none => simp [sortPairParents, hp]
  | some l =>
    by_cases h : l.length = 2
    · have hspp : (sortPairParents p).parents = some (sortJS l) := by
        simp [sortPairParents, hp, h]
      simp only [hspp, hp]
      simp [sortJS_length, h, sortJS_idem, (sortPairParents_fields p).1]
    · have hspp : (sortPairParents p).parents = some l := by
        simp [sortPairParents, hp, h]
      simp only [hspp, hp]
      simp [(sortPairParents_fields p).1]

theorem partnershipStep_map_sortPairParents (c : Config) (d : List Person)
    (bks : List (String × List String)) (acc : List String × List Cmd) (p : Person) :
    partnershipStep c (d.map sortPairParents) bks acc (sortPairParents p) =
    partnershipStep c d bks acc p := by
  cases hm : p.mate with
  | none =>
    have h1 : (sortPairParents p).mate = none := by
      rw [(sortPairParents_fields p).2.2.2.2.2.1, hm]
    simp [partnershipStep, h1, hm]
  | some m =>
    have h1 : (sortPairParents p).mate = some m := by
      rw [(sortPairParents_fields p).2.2.2.2.2.1, hm]
    simp only [partnershipStep, h1, hm, (sortPairParents_fields p).1,
      nodeCoord_map_sortPairParents]

theorem partnershipFold_map_sortPairParents (c : Config) (d : List Person)
    (bks : List (String × List String)) :
    partnershipFold c (d.map sortPairParents) bks = partnershipFold c d bks := by
  unfold partnershipFold
  rw [List.foldl_map]
  exact foldl_fun_congr _ _ d
    (fun acc p => partnershipStep_map_sortPairParents c d bks acc p) ([], [])

theorem coordsOf_map_sortPairParents (c : Config) (d : List Person) (ids : List String) :
    coordsOf c (d.map sortPairParents) ids = coordsOf c d ids := by
  induction' ids with x rest ih
  · rfl
  · rw [coordsOf, coordsOf, nodeCoord_map_sortPairParents, ih]

theorem sibshipCmdsFor_map_sortPairParents (c : Config) (d : List Person)
    (b : String × List String) :
    sibshipCmdsFor c (d.map sortPairParents) b = sibshipCmdsFor c d b := by
  unfold sibshipCmdsFor
  cases hsp : splitDash b.1 with
  | nil => rfl
  | cons id0 rest =>
    cases rest with
    | nil => rfl
    | cons id1 tl =>
      simp only [nodeCoord_map_sortPairParents, coordsOf_map_sortPairParents]

theorem sibshipAll_map_sortPairParents (c : Config) (d : List Person)
    (bl : List (String × List String)) :
    sibshipAll c (d.map sortPairParents) bl = sibshipAll c d bl := by
  induction' bl with b rest ih
  · rfl
  · rw [sibshipAll, sibshipAll, sibshipCmdsFor_map_sortPairParents, ih]

theorem connectionCmds_map_sortPairParents (c : Config) (d : List Person) :
    connectionCmds c (d.map sortPairParents) = connectionCmds c d := by
  unfold connectionCmds
  dsimp only
  rw [childrenByParents_map_sortPairParents, partnershipFold_map_sortPairParents,
    sibshipAll_map_sortPairParents]

theorem drawNode_map_sortPairParents (c : Config) (d : List Person) :
    (d.map sortPairParents).map (drawNodeCmds c) = d.map (drawNodeCmds c) := by
  rw [List.map_map]
  exact List.map_congr_left fun p _ => drawNodeCmds_sortPairParents c p

/-- C9 (amended): with the layout optimizer disabled, rendering twice in
succession with no intervening external mutation issues the identical
sequence of drawing commands both times (the only data mutation a pass
leaves — the in-place sorting of two-element `parents` pairs — does not
change any emitted command).  With the optimizer enabled the embedded pass
is a single forward sweep that is not idempotent, and the command sequences
can differ — see the counterexample. -/
theorem C9_render_idempotent_no_optimizer (s : PMState)
    (hopt : s.config.autoLayoutOptimize = false) (s1 s2 : PMState) (c1 c2 : List Cmd)
    (h1 : renderResult s = some (s1, c1)) (h2 : renderResult s1 = some (s2, c2)) :
    c1 = c2 := by
  have hoptid : ∀ dd, optimizeLayout s.config dd = dd := by
    intro dd
    unfold optimizeLayout
    rw [hopt]
    simp
  unfold renderResult at h1 h2
  rw [hoptid] at h1
  obtain ⟨cc, hcc, heq⟩ := Option.map_eq_some'.mp h1
  have hs1 : s1 = { s with data := s.data.map sortPairParents } :=
    ((Prod.mk.injEq _ _ _ _).mp heq).1.symm
  have hc1 : c1 = Cmd.clearSurface ::
      ((s.data.map (drawNodeCmds s.config)).flatten ++ cc) :=
    ((Prod.mk.injEq _ _ _ _).mp heq).2.symm
  subst hs1
  dsimp only at h2
  rw [hoptid, connectionCmds_map_sortPairParents, hcc] at h2
  obtain ⟨-, hc2⟩ := (Prod.mk.injEq _ _ _ _).mp (Option.some.inj h2)
  rw [hc1, ← hc2, drawNode_map_sortPairParents]

/-- C9 counterexample: the claim states render is idempotent for every
dataset and configuration.  On `stateC9` both renders succeed, but the
optimize pass embedded in the second render swaps `A` and `S` again (the
first pass left sibling `S` strictly inside the `A`–`A2` span), so the two
passes issue different command sequences. -/
theorem C9_second_render_differs_counterexample :
    ((renderResult stateC9).map Prod.snd).isSome = true ∧
    ((renderResult stateC9).bind fun r => (renderResult r.1).map Prod.snd).isSome = true ∧
    (renderResult stateC9).map Prod.snd ≠
      ((renderResult stateC9).bind fun r => (renderResult r.1).map Prod.snd) := by
  refine ⟨by decide, by decide, by decide⟩

/-- Witness for C9: with the optimizer off, two successive renders of the
one-person state issue the same command list. -/
theorem C9_render_idempotent_no_optimizer_witness :
    ([Cmd.clearSurface, Cmd.outlineRect 25 25 50 50, Cmd.textLine "A" 50 90] : List Cmd) =
      [Cmd.clearSurface, Cmd.outlineRect 25 25 50 50, Cmd.textLine "A" 50 90] :=
  C9_render_idempotent_no_optimizer stateOff rfl stateOff stateOff
    [Cmd.clearSurface, Cmd.outlineRect 25 25 50 50, Cmd.textLine "A" 50 90]
    [Cmd.clearSurface, Cmd.outlineRect 25 25 50 50, Cmd.textLine "A" 50 90]
    (by decide) (by decide)

end ConcreteEvaluation

end PedigreeMaker

